import Mathlib

/-!
Verification of the mold template-composition engine (Go package `mold`).

The definitions below are a shallow embedding of the tree rewriter
(`process.go`: `processTree`, `processNode`, `processActionNode`,
`invalidFuncType`, `getActionArgs`, `pos`), the composer
(`engine.go`: `parseLayout`, `parseView`, `parsePartial`,
`moldEngine.Render`) and the older `tplLayout` composer
(`layout.go`: `parseView` with the head placeholder, and the
flag-based `processTree` variant it uses).

Go's in-place tree mutation is rendered as pure functions that return
the rewritten tree; Go maps are association lists; a `templateFile`
carries the fields of the Go struct (name, type tag, raw body, parse
tree and the trees of its define blocks).
-/

/-! ## Template parse trees (text/template/parse, restricted to the
node kinds the rewriter inspects) -/

/-- Argument of a command node: identifier, string literal, field access,
dot, or any other expression (left opaque). Mirrors the `parse.Node`
kinds that `getActionArgs` inspects. -/
inductive Arg where
  | ident (s : String)
  | str (s : String)
  | field (path : List String)
  | dot
  | other
deriving DecidableEq, Repr

/-- A `parse.CommandNode`: a list of arguments. -/
structure Command where
  args : List Arg
deriving DecidableEq, Repr

/-- Template parse tree node. `action` is a `parse.ActionNode` (its pipe's
command list), `tmpl` a `parse.TemplateNode`, `list` a `parse.ListNode`;
`withN`, `ifN` and `rangeN` carry their body and else lists, which in Go
are possibly-nil `*parse.ListNode` pointers, hence `Option Node`. `text`
stands for every other node kind, which the walk leaves untouched. -/
inductive Node where
  | text (s : String)
  | action (p ln : Nat) (cmds : List Command)
  | tmpl (p ln : Nat) (name : String) (cmds : List Command)
  | list (ns : List Node)
  | withN (ls el : Option Node)
  | ifN (ls el : Option Node)
  | rangeN (ls el : Option Node)

/-! ## process.go -/

/-- Go `nestingFunc` constant `renderFunc` (`nestingFunc` is a string type). -/
def renderFunc : String := "render"

/-- Go `nestingFunc` constant `partialFunc`. -/
def partialFunc : String := "partial"

/-- Go `templateType` constant `layoutType`. -/
def layoutType : String := "layout"

/-- Go `templateType` constant `viewType`. -/
def viewType : String := "view"

/-- Go `templateType` constant `partialType`. -/
def partialType : String := "partial"

/-- Go struct `nestedFile`: a referenced template name tagged with the
marker function (`render`/`partial`) that referenced it. -/
structure nestedFile where
  name : String
  typ : String
deriving DecidableEq, Repr

/-- Go struct `posErr`: an error carrying the byte offset of the
offending node. -/
structure posErr where
  pos : Nat
  message : String
deriving DecidableEq, Repr

/-- Go struct `templateFile`: the embedded `*template.Template` is
flattened into its name, its main parse tree and the trees of its
associated (define-block) templates; `typ` and `body` are the struct's
own fields (`typ` zero value is the empty string). -/
structure templateFile where
  name : String
  typ : String
  body : List Char
  tree : Node
  defines : List (String × Node)

/-- Go `getActionArgs`: extract the callee identifier (args[0]), the
string-literal target (args[1]) and the field-access argument (args[2])
of a command, each defaulting when absent or of another kind. -/
def getActionArgs (cmd : Command) : String × String × Option (List String) :=
  let fn := match cmd.args.head? with
    | some (Arg.ident s) => s
    | _ => ""
  let file := match cmd.args[1]? with
    | some (Arg.str s) => s
    | _ => ""
  let fld := match cmd.args[2]? with
    | some (Arg.field f) => some f
    | _ => none
  (fn, file, fld)

/-- Go `invalidFuncType`: a view may not use `render`; a partial may use
neither `render` nor `partial`. -/
def invalidFuncType (typ : String) (funcName : String) : Bool :=
  if typ = viewType then funcName = renderFunc
  else if typ = partialType then funcName = renderFunc || funcName = partialFunc
  else false

/-- Go `processActionNode` (process.go): validate one action node and
produce its replacement. Returns `.error e` where Go returns a `posErr`,
`.ok (some n)` where Go replaces the node in its parent by the template
node `n`, and `.ok none` where Go leaves the node untouched (callee is
neither marker). The checks run in source order: cyclic reference,
illegal marker for the role, then the marker-specific handling. -/
def processActionNode (rootName rootTyp : String) (p ln : Nat) (cmd : Command)
    (funcName : String) : Except posErr (Option Node) :=
  let (_, name, fld) := getActionArgs cmd
  if name = rootName then
    .error ⟨p, "cyclic reference"⟩
  else if invalidFuncType rootTyp funcName then
    .error ⟨p, funcName ++ " not supported"⟩
  else if funcName = partialFunc then
    let arg := match fld with
      | some f => Arg.field f
      | none => Arg.dot
    if name = "" then
      .error ⟨p, "path to partial file is not specified"⟩
    else
      .ok (some (Node.tmpl p ln name [⟨[arg]⟩]))
  else if funcName = renderFunc then
    let name := if name = "" then "body" else name
    .ok (some (Node.tmpl p ln name [⟨[Arg.dot]⟩]))
  else
    .ok none

/-- Sequencing of two walk results under Go's `appendResult` closure:
a non-nil error overwrites the previous one (last error wins), and
references accumulate only while no error has occurred. -/
def combine (a b : List nestedFile × Option posErr) :
    List nestedFile × Option posErr :=
  match a, b with
  | (ts1, none), (ts2, none) => (ts1 ++ ts2, none)
  | (ts1, none), (_, some e) => (ts1, some e)
  | (_, some e1), (_, none) => ([], some e1)
  | (_, some _), (_, some e2) => ([], some e2)

mutual

/-- Go `processNode` (process.go): walk a node, rewriting marker action
nodes in place and collecting the referenced template names. Returns the
rewritten node, the references, and the error, mirroring the Go function
(which mutates the tree and returns `(ts, err)`). -/
def processNode (rootName rootTyp : String) : Node → Node × List nestedFile × Option posErr
  | Node.action p ln cmds =>
    match cmds with
    | [] => (Node.action p ln cmds, [], none)
    | cmd :: rest =>
      let (funcName, tname, _) := getActionArgs cmd
      match processActionNode rootName rootTyp p ln cmd funcName with
      | .error e => (Node.action p ln (cmd :: rest), [], some e)
      | .ok repl =>
        let node' := match repl with
          | some n => n
          | none => Node.action p ln (cmd :: rest)
        let ts :=
          if funcName = partialFunc ∧ tname ≠ "" then [⟨tname, partialFunc⟩]
          else if funcName = renderFunc ∧ tname ≠ "" then [⟨tname, renderFunc⟩]
          else []
        (node', ts, none)
  | Node.withN ls el =>
    let (ls', r1) := processOpt rootName rootTyp ls
    let (el', r2) := processOpt rootName rootTyp el
    (Node.withN ls' el', combine r1 r2)
  | Node.list ns =>
    let (ns', r) := processList rootName rootTyp ns
    (Node.list ns', r)
  | Node.ifN ls el =>
    let (ls', r1) := processOpt rootName rootTyp ls
    let (el', r2) := processOpt rootName rootTyp el
    (Node.ifN ls' el', combine r1 r2)
  | Node.rangeN ls el =>
    let (ls', r1) := processOpt rootName rootTyp ls
    let (el', r2) := processOpt rootName rootTyp el
    (Node.rangeN ls' el', combine r1 r2)
  | Node.text s => (Node.text s, [], none)
  | Node.tmpl p ln name cmds => (Node.tmpl p ln name cmds, [], none)

/-- The `for i, n := range l.Nodes` loop of Go `processNode`: every child
is processed (and replaced) in order, results sequenced by `combine`. -/
def processList (rootName rootTyp : String) :
    List Node → List Node × List nestedFile × Option posErr
  | [] => ([], [], none)
  | n :: rest =>
    let (n', r1) := processNode rootName rootTyp n
    let (rest', r2) := processList rootName rootTyp rest
    (n' :: rest', combine r1 r2)

/-- A possibly-nil `*parse.ListNode` body: Go's walk is a no-op on nil. -/
def processOpt (rootName rootTyp : String) :
    Option Node → Option Node × List nestedFile × Option posErr
  | none => (none, [], none)
  | some n =>
    let (n', r) := processNode rootName rootTyp n
    (some n', r)

end

/-- Go `pos` (process.go): translate a byte offset into a 1-based
line/column by scanning the raw source, `i` being the byte offset of the
current character as in `for i, char := range body`. -/
def posLoop : List Char → Nat → Nat → Nat → Nat → Nat × Nat
  | [], _, _, line, col => (line, col)
  | c :: rest, i, p, line, col =>
    if p ≤ i then (line, col)
    else if c = '\n' then posLoop rest (i + c.utf8Size) p (line + 1) 1
    else posLoop rest (i + c.utf8Size) p line (col + 1)

/-- Go `pos` entry point: line and column start at 1. -/
def pos (body : List Char) (p : Nat) : Nat × Nat :=
  posLoop body 0 p 1 1

/-- A `processTree` error: Go wraps the `posErr` as
`fmt.Errorf("%s:%d:%d: %s: %w", t.Name(), line, col, t.typ, err)`;
the wrapped error keeps its fields. -/
structure TplErr where
  file : String
  line : Nat
  col : Nat
  typ : String
  cause : posErr
deriving DecidableEq, Repr

/-- Go `processTree` (process.go): rewrite a template file's tree and
return the references; a `posErr` from the walk is wrapped with the
file name, line/column (via `pos`) and role. The rewritten tree replaces
the file's tree (Go mutates it in place). -/
def processTree (t : templateFile) : templateFile × List nestedFile × Option TplErr :=
  let (tree', ts, err) := processNode t.name t.typ t.tree
  let t' := { t with tree := tree' }
  match err with
  | some e =>
    let lc := pos t.body e.pos
    (t', ts, some ⟨t.name, lc.1, lc.2, t.typ, e⟩)
  | none => (t', ts, none)

/-! ## Characterization of the walk's error: last failing action wins -/

/-- The error `processActionNode` yields for an action node's first
command, as `processNode` invokes it (callee taken from
`getActionArgs`); `none` when the node is accepted or left untouched. -/
def actionErr (rootName rootTyp : String) (p ln : Nat) (cmd : Command) : Option posErr :=
  match processActionNode rootName rootTyp p ln cmd (getActionArgs cmd).1 with
  | .error e => some e
  | .ok _ => none

mutual

/-- All walk errors of a tree, in depth-first walk order (the order the
Go loop visits them). -/
def failing (rootName rootTyp : String) : Node → List posErr
  | Node.action p ln cmds =>
    match cmds with
    | [] => []
    | cmd :: _ =>
      match actionErr rootName rootTyp p ln cmd with
      | some e => [e]
      | none => []
  | Node.withN ls el =>
    failingOpt rootName rootTyp ls ++ failingOpt rootName rootTyp el
  | Node.list ns => failingList rootName rootTyp ns
  | Node.ifN ls el =>
    failingOpt rootName rootTyp ls ++ failingOpt rootName rootTyp el
  | Node.rangeN ls el =>
    failingOpt rootName rootTyp ls ++ failingOpt rootName rootTyp el
  | Node.text _ => []
  | Node.tmpl _ _ _ _ => []

/-- Walk errors of a list of children, in order. -/
def failingList (rootName rootTyp : String) : List Node → List posErr
  | [] => []
  | n :: rest => failing rootName rootTyp n ++ failingList rootName rootTyp rest

/-- Walk errors of an optional body. -/
def failingOpt (rootName rootTyp : String) : Option Node → List posErr
  | none => []
  | some n => failing rootName rootTyp n

end

/-! ## Presence predicates over trees (walked exactly where processNode walks) -/

mutual

/-- A marker (`render`/`partial`) action invocation whose string target
equals the given root name occurs somewhere the walk visits. -/
def hasSelfTarget (rootName : String) : Node → Bool
  | Node.action _ _ cmds =>
    match cmds with
    | [] => false
    | cmd :: _ =>
      (decide ((getActionArgs cmd).1 = renderFunc) ||
        decide ((getActionArgs cmd).1 = partialFunc)) &&
        decide ((getActionArgs cmd).2.1 = rootName)
  | Node.withN ls el => hasSelfTargetOpt rootName ls || hasSelfTargetOpt rootName el
  | Node.list ns => hasSelfTargetList rootName ns
  | Node.ifN ls el => hasSelfTargetOpt rootName ls || hasSelfTargetOpt rootName el
  | Node.rangeN ls el => hasSelfTargetOpt rootName ls || hasSelfTargetOpt rootName el
  | Node.text _ => false
  | Node.tmpl _ _ _ _ => false

def hasSelfTargetList (rootName : String) : List Node → Bool
  | [] => false
  | n :: rest => hasSelfTarget rootName n || hasSelfTargetList rootName rest

def hasSelfTargetOpt (rootName : String) : Option Node → Bool
  | none => false
  | some n => hasSelfTarget rootName n

end

mutual

/-- An action invocation whose callee identifier is one of `fns` occurs
somewhere the walk visits. -/
def containsCall (fns : List String) : Node → Bool
  | Node.action _ _ cmds =>
    match cmds with
    | [] => false
    | cmd :: _ => fns.contains (getActionArgs cmd).1
  | Node.withN ls el => containsCallOpt fns ls || containsCallOpt fns el
  | Node.list ns => containsCallList fns ns
  | Node.ifN ls el => containsCallOpt fns ls || containsCallOpt fns el
  | Node.rangeN ls el => containsCallOpt fns ls || containsCallOpt fns el
  | Node.text _ => false
  | Node.tmpl _ _ _ _ => false

def containsCallList (fns : List String) : List Node → Bool
  | [] => false
  | n :: rest => containsCall fns n || containsCallList fns rest

def containsCallOpt (fns : List String) : Option Node → Bool
  | none => false
  | some n => containsCall fns n

end

/-! ## Claim C6 -/

/-- Modelled from the spec's words for the reference scan: the characters
of the source whose starting byte offset lies strictly before the given
byte offset (the characters "visited up to, not including, the offset"). -/
def specCharsBeforeOffset : List Char → Nat → Nat → List Char
  | [], _, _ => []
  | c :: rest, i, p =>
    if i < p then c :: specCharsBeforeOffset rest (i + c.utf8Size) p else []

/-- Modelled from the spec's words: start at line 1 column 1; visit the
characters up to (not including) the offset; a newline increments the
line and resets the column to 1; every other character increments the
column by 1. -/
def specPosScan (body : List Char) (p : Nat) : Nat × Nat :=
  (specCharsBeforeOffset body 0 p).foldl
    (fun lc c => if c = '\n' then (lc.1 + 1, 1) else (lc.1, lc.2 + 1)) (1, 1)

/-! ## engine.go: the composer -/

/-- Association-list lookup (a Go map read `m[k]`, `nil` when absent). -/
def lookupTS {α : Type} : List (String × α) → String → Option α
  | [], _ => none
  | (k, v) :: rest, n => if k = n then some v else lookupTS rest n

/-- Association-list update of an existing key (mutation of the struct a
Go map entry points to). -/
def updateTS {α : Type} : List (String × α) → String → α → List (String × α)
  | [], _, _ => []
  | (k, v) :: rest, n, v' =>
    if k = n then (k, v') :: updateTS rest n v'
    else (k, v) :: updateTS rest n v'

/-- Go `(*template.Template).AddParseTree`: associate a parse tree with a
name in a template's set, replacing any previous association. -/
def AddParseTree (set : List (String × Node)) (name : String) (tree : Node) :
    List (String × Node) :=
  match lookupTS set name with
  | some _ => updateTS set name tree
  | none => set ++ [(name, tree)]

/-- A composed template: the clone's main tree plus its associated
(grafted) named trees. -/
structure Composed where
  tree : Node
  assoc : List (String × Node)

/-- Set of template files keyed by path, as built by `walk`. -/
abbrev templateSet := List (String × templateFile)

/-- Construction-time errors of engine.go, each mirroring one
`fmt.Errorf` wrapping site: `notFound` wraps `ErrNotFound` as
`error parsing template '<name>'`, `parsePartialE` wraps
`error parsing partial: '<name>'`, `parseViewE` wraps
`error parsing view '<name>'`, `processLayoutE` wraps
`error processing layout`. `nilTemplate` stands for the nil-pointer
dereference Go would hit in `parseView` if the looked-up view were
absent (unreachable: `newEngine` iterates the keys of the set). -/
inductive EngineErr where
  | notFound (name : String)
  | parsePartialE (name : String) (e : TplErr)
  | parseViewE (name : String) (e : TplErr)
  | processLayoutE (e : TplErr)
  | nilTemplate (name : String)
deriving DecidableEq, Repr

/-- Go `parsePartial` (engine.go): rewrite a partial's tree, dropping the
references and keeping only the error. -/
def parsePartialFile (t : templateFile) : templateFile × Option TplErr :=
  let r := processTree t
  (r.1, r.2.2)

/-- The reference-resolution loop of Go `parseLayout` (engine.go): for
each reference, look its name up in the set; a missing `partial` target
is `ErrNotFound`; a missing `render` target becomes an empty placeholder
sub-template; the target is stamped `partial`, rewritten via
`parsePartial`, and its tree grafted into the layout under the
reference's name. Found targets live in the set, so their restamped,
rewritten file replaces their entry. -/
def parseLayoutRefs : templateSet → List (String × Node) → List nestedFile →
    Except EngineErr (templateSet × List (String × Node))
  | root, grafts, [] => .ok (root, grafts)
  | root, grafts, ref :: rest =>
    match lookupTS root ref.name with
    | none =>
      if ref.typ = partialFunc then
        .error (.notFound ref.name)
      else
        let t : templateFile :=
          { name := ref.name, typ := "", body := [], tree := Node.list [],
            defines := [] }
        let t1 := { t with typ := partialType }
        match parsePartialFile t1 with
        | (_, some e) => .error (.parsePartialE ref.name e)
        | (t2, none) =>
          parseLayoutRefs root (AddParseTree grafts ref.name t2.tree) rest
    | some t =>
      let t1 := { t with typ := partialType }
      match parsePartialFile t1 with
      | (_, some e) => .error (.parsePartialE ref.name e)
      | (t2, none) =>
        parseLayoutRefs (updateTS root ref.name t2)
          (AddParseTree grafts ref.name t2.tree) rest

/-- Go `parseLayout` (engine.go): parse and rewrite the layout (named
`layout`, role `layout`), then resolve every returned reference against
the set. The parsing of the raw layout text under the base template
grammar is out of scope; the parsed tree is taken as input. -/
def parseLayout (root : templateSet) (layoutTree : Node) (layoutRaw : List Char) :
    Except EngineErr (templateSet × Composed) :=
  let layout : templateFile :=
    { name := "layout", typ := layoutType, body := layoutRaw, tree := layoutTree,
      defines := [] }
  match processTree layout with
  | (_, _, some e) => .error (.processLayoutE e)
  | (layout', refs, none) =>
    match parseLayoutRefs root [] refs with
    | .error e => .error e
    | .ok (root', grafts) => .ok (root', ⟨layout'.tree, grafts⟩)

/-- The reference-resolution loop of Go `parseView` (engine.go): like the
layout's loop, but a missing target is always `ErrNotFound` — no
placeholder tolerance. -/
def parseViewRefs : templateSet → List (String × Node) → List nestedFile →
    Except EngineErr (templateSet × List (String × Node))
  | root, assoc, [] => .ok (root, assoc)
  | root, assoc, ref :: rest =>
    match lookupTS root ref.name with
    | none => .error (.notFound ref.name)
    | some t =>
      let t1 := { t with typ := partialType }
      match parsePartialFile t1 with
      | (_, some e) => .error (.parsePartialE ref.name e)
      | (t2, none) =>
        parseViewRefs (updateTS root ref.name t2)
          (AddParseTree assoc ref.name t2.tree) rest

/-- Go `parseView` (engine.go): clone the composed layout, stamp the view
file with the `view` role, rewrite its tree, resolve its references
(grafting into the clone), then graft the file's own templates — the
main tree under the name `body` when its name equals the view's name,
the define blocks under their own names. -/
def parseView (set : templateSet) (layout : Composed) (name : String) :
    Except EngineErr (templateSet × Composed) :=
  match lookupTS set name with
  | none => .error (.nilTemplate name)
  | some body =>
    let body1 := { body with typ := viewType }
    match processTree body1 with
    | (_, _, some e) => .error (.parseViewE name e)
    | (body2, refs, none) =>
      let set1 := updateTS set name body2
      match parseViewRefs set1 layout.assoc refs with
      | .error e => .error e
      | .ok (set2, assoc2) =>
        let assoc3 := ((body2.name, body2.tree) :: body2.defines).foldl
          (fun acc t => AddParseTree acc (if t.1 = name then "body" else t.1) t.2)
          assoc2
        .ok (set2, ⟨layout.tree, assoc3⟩)

/-- The view loop of Go `newEngine`: compose every template of the set as
a view (the iteration order of the Go map is a parameter), aborting
construction on the first error. Set mutations (role stamps, rewrites)
persist across iterations. -/
def processViews : templateSet → Composed → List String →
    Except EngineErr (templateSet × List (String × Composed))
  | set, _, [] => .ok (set, [])
  | set, layout, n :: rest =>
    match parseView set layout n with
    | .error e => .error e
    | .ok (set', view) =>
      match processViews set' layout rest with
      | .error e => .error e
      | .ok (set'', m) => .ok (set'', (n, view) :: m)

/-- Render-time errors: the `ErrNotFound` sentinel, or an execution error
wrapped as `error rendering '<view>'`. -/
inductive RenderErr where
  | notFound
  | renderE (view : String) (msg : String)
deriving DecidableEq, Repr

namespace moldEngine

/-- Go `moldEngine.Render` (engine.go): look the view up by name; absent
views return the `ErrNotFound` sentinel without touching the writer;
otherwise the composed template is executed against the data, its output
appended to the writer, and an execution failure is wrapped with the
view name. Execution by the base engine is out of scope and passed in as
`ex` (returning the chunks written and an optional error). -/
def Render {α : Type} (m : List (String × Composed))
    (ex : Composed → α → List String × Option String)
    (w : List String) (view : String) (data : α) :
    List (String × Composed) × List String × Option RenderErr :=
  match lookupTS m view with
  | none => (m, w, some RenderErr.notFound)
  | some layout =>
    let r := ex layout data
    match r.2 with
    | some msg => (m, w ++ r.1, some (RenderErr.renderE view msg))
    | none => (m, w ++ r.1, none)

end moldEngine

/-- Fixture for the C3 witness: an empty template file named `a.html`. -/
def c3Fixture : templateFile :=
  { name := "a.html", typ := "", body := [], tree := Node.list [], defines := [] }

/-! ## Claim C8 -/

/-- Fixture for C8: a file that invokes `partial` on another file. -/
def mutualFile (own other : String) (raw : List Char) : templateFile :=
  { name := own, typ := "", body := raw,
    tree := Node.list [Node.action 0 0 [⟨[Arg.ident partialFunc, Arg.str other]⟩]],
    defines := [] }

/-! ## layout.go: the tplLayout composer and its flag-based rewriter -/

/-- Go `bodySection` constant (layout.go). -/
def bodySection : String := "body"

/-- Go `headSection` constant (layout.go). -/
def headSection : String := "head"

namespace tplLayout

/-- The flag-based `processActionNode` used by layout.go's composer:
no cyclic check and no role table; the booleans say which markers are
rewritten (anything else is left untouched). `rf`/`pf` stand for the Go
parameters named after the two markers. -/
def processActionNode (p ln : Nat) (cmd : Command) (funcName : String)
    (rf pf : Bool) : Except posErr (Option Node) :=
  let (_, name, fld) := getActionArgs cmd
  if funcName = partialFunc ∧ pf then
    let arg := match fld with
      | some f => Arg.field f
      | none => Arg.dot
    if name = "" then
      .error ⟨p, "partial: path to partial file is not specified"⟩
    else
      .ok (some (Node.tmpl p ln name [⟨[arg]⟩]))
  else if funcName = renderFunc ∧ rf then
    let name := if name = "" then bodySection else name
    .ok (some (Node.tmpl p ln name [⟨[Arg.dot]⟩]))
  else
    .ok none

mutual

/-- The flag-based `processNode` used by layout.go's composer: markers
are rewritten per the flags; the name of EVERY action whose second
argument is a string literal is collected; on an error the remaining
children are skipped (the `parentErr` early exit), and there is no
`with` case. -/
def processNode (rf pf : Bool) : Node → Node × List String × Option posErr
  | Node.action p ln cmds =>
    match cmds with
    | [] => (Node.action p ln cmds, [], none)
    | cmd :: rest =>
      let (funcName, tname, _) := getActionArgs cmd
      if funcName = renderFunc ∨ funcName = partialFunc then
        match processActionNode p ln cmd funcName rf pf with
        | .error e => (Node.action p ln (cmd :: rest), [], some e)
        | .ok repl =>
          let node' := match repl with
            | some n => n
            | none => Node.action p ln (cmd :: rest)
          (node', if tname ≠ "" then [tname] else [], none)
      else
        (Node.action p ln (cmd :: rest), if tname ≠ "" then [tname] else [], none)
  | Node.list ns =>
    let (ns', r) := processList rf pf ns
    (Node.list ns', r)
  | Node.ifN ls el =>
    let (ls', r1) := processOpt rf pf ls
    match r1.2 with
    | some e => (Node.ifN ls' el, [], some e)
    | none =>
      let (el', r2) := processOpt rf pf el
      match r2.2 with
      | some e => (Node.ifN ls' el', r1.1, some e)
      | none => (Node.ifN ls' el', r1.1 ++ r2.1, none)
  | Node.rangeN ls el =>
    let (ls', r1) := processOpt rf pf ls
    match r1.2 with
    | some e => (Node.rangeN ls' el, [], some e)
    | none =>
      let (el', r2) := processOpt rf pf el
      match r2.2 with
      | some e => (Node.rangeN ls' el', r1.1, some e)
      | none => (Node.rangeN ls' el', r1.1 ++ r2.1, none)
  | Node.withN ls el => (Node.withN ls el, [], none)
  | Node.text s => (Node.text s, [], none)
  | Node.tmpl p ln name cmds => (Node.tmpl p ln name cmds, [], none)

def processList (rf pf : Bool) : List Node → List Node × List String × Option posErr
  | [] => ([], [], none)
  | n :: rest =>
    let (n', r1) := processNode rf pf n
    match r1.2 with
    | some e => (n' :: rest, [], some e)
    | none =>
      let (rest', r2) := processList rf pf rest
      (n' :: rest', r1.1 ++ r2.1, r2.2)

def processOpt (rf pf : Bool) : Option Node → Option Node × List String × Option posErr
  | none => (none, [], none)
  | some n =>
    let (n', r) := processNode rf pf n
    (some n', r)

end

/-- The flag-based `processTree`: wraps a walk error as
`"%s:%d:%d: %w"` with the template name and the line/column from `pos`
(structured here as fields). -/
def processTree (name : String) (raw : List Char) (rf pf : Bool) (tree : Node) :
    Node × List String × Option (String × Nat × Nat × posErr) :=
  let (tree', ts, err) := processNode rf pf tree
  match err with
  | some e => (tree', ts, some (name, (pos raw e.pos).1, (pos raw e.pos).2, e))
  | none => (tree', ts, none)

/-- The reference-grafting loop of layout.go's `parseView`: every
referenced name must resolve in the shared root set (`ErrNotFound`
otherwise) and its tree is grafted into the clone. Error strings carry
the wrapping messages. -/
def graftRefs (root : List (String × Node)) :
    List (String × Node) → List String → Except String (List (String × Node))
  | l, [] => .ok l
  | l, ref :: rest =>
    match lookupTS root ref with
    | none => .error ("error parsing template '" ++ ref ++ "': template not found")
    | some tpl => graftRefs root (AddParseTree l ref tpl) rest

/-- Go `parseView` (layout.go): clone the layout's template set, look the
view's tree up in the shared root set, rewrite it with `render` disabled
and `partial` enabled, graft every reference, graft every template of
the (shared) root set — renaming the one whose name equals the view's
name to the `body` section — and finally graft an empty `head`
placeholder if the clone still has none. -/
def parseView (layout root : List (String × Node)) (name : String)
    (raw : List Char) : Except String (List (String × Node)) :=
  let l := layout
  match lookupTS root name with
  | none => .error "template not found"
  | some bodyTree =>
    match processTree name raw false true bodyTree with
    | (_, _, some _) => .error ("error parsing view '" ++ name ++ "'")
    | (bodyTree', refs, none) =>
      let root' := updateTS root name bodyTree'
      match graftRefs root' l refs with
      | .error e => .error e
      | .ok l1 =>
        let l2 := root'.foldl
          (fun acc t =>
            AddParseTree acc (if t.1 = name then bodySection else t.1) t.2) l1
        if (lookupTS l2 headSection).isNone then
          .ok (AddParseTree l2 headSection (Node.list []))
        else
          .ok l2

end tplLayout

theorem combine_err (a b : List nestedFile × Option posErr) :
    (combine a b).2 = b.2.or a.2 := by
  rcases a with ⟨ts1, e1⟩
  rcases b with ⟨ts2, e2⟩
  cases e1 <;> cases e2 <;> simp [combine, Option.or]

theorem getLast?_or_append {α : Type} (l1 l2 : List α) :
    (l1 ++ l2).getLast? = (l2.getLast?).or l1.getLast? := by
  cases l2 with
  | nil => simp [Option.or]
  | cons b bs =>
    rw [List.getLast?_append_cons]
    have hne : b :: bs ≠ [] := by simp
    rw [List.getLast?_eq_getLast _ hne]
    simp [Option.or]

mutual

theorem processNode_err (rootName rootTyp : String) :
    (n : Node) →
      (processNode rootName rootTyp n).2.2 = (failing rootName rootTyp n).getLast?
  | Node.text s => by simp [processNode, failing]
  | Node.tmpl p ln name cmds => by simp [processNode, failing]
  | Node.action p ln cmds => by
    cases cmds with
    | nil => simp [processNode, failing]
    | cons cmd rest =>
      simp only [processNode, failing, actionErr]
      rcases h : processActionNode rootName rootTyp p ln cmd (getActionArgs cmd).1 with e | repl
      · simp [h]
      · simp [h]
  | Node.withN ls el => by
    have h1 := processOpt_err rootName rootTyp ls
    have h2 := processOpt_err rootName rootTyp el
    rcases hls : processOpt rootName rootTyp ls with ⟨ls', ts1, e1⟩
    rcases hel : processOpt rootName rootTyp el with ⟨el', ts2, e2⟩
    rw [hls] at h1
    rw [hel] at h2
    simp only [processNode, hls, hel, failing, getLast?_or_append]
    rw [combine_err]
    simp at h1 h2
    rw [h1, h2]
  | Node.ifN ls el => by
    have h1 := processOpt_err rootName rootTyp ls
    have h2 := processOpt_err rootName rootTyp el
    rcases hls : processOpt rootName rootTyp ls with ⟨ls', ts1, e1⟩
    rcases hel : processOpt rootName rootTyp el with ⟨el', ts2, e2⟩
    rw [hls] at h1
    rw [hel] at h2
    simp only [processNode, hls, hel, failing, getLast?_or_append]
    rw [combine_err]
    simp at h1 h2
    rw [h1, h2]
  | Node.rangeN ls el => by
    have h1 := processOpt_err rootName rootTyp ls
    have h2 := processOpt_err rootName rootTyp el
    rcases hls : processOpt rootName rootTyp ls with ⟨ls', ts1, e1⟩
    rcases hel : processOpt rootName rootTyp el with ⟨el', ts2, e2⟩
    rw [hls] at h1
    rw [hel] at h2
    simp only [processNode, hls, hel, failing, getLast?_or_append]
    rw [combine_err]
    simp at h1 h2
    rw [h1, h2]
  | Node.list ns => by
    have h := processList_err rootName rootTyp ns
    rcases hns : processList rootName rootTyp ns with ⟨ns', ts, e⟩
    rw [hns] at h
    simp only [processNode, hns, failing]
    simpa using h

theorem processList_err (rootName rootTyp : String) :
    (ns : List Node) →
      (processList rootName rootTyp ns).2.2 =
        (failingList rootName rootTyp ns).getLast?
  | [] => by simp [processList, failingList]
  | n :: rest => by
    have h1 := processNode_err rootName rootTyp n
    have h2 := processList_err rootName rootTyp rest
    rcases hn : processNode rootName rootTyp n with ⟨n', ts1, e1⟩
    rcases hr : processList rootName rootTyp rest with ⟨rest', ts2, e2⟩
    rw [hn] at h1
    rw [hr] at h2
    simp only [processList, hn, hr, failingList, getLast?_or_append]
    rw [combine_err]
    simp at h1 h2
    rw [h1, h2]

theorem processOpt_err (rootName rootTyp : String) :
    (o : Option Node) →
      (processOpt rootName rootTyp o).2.2 = (failingOpt rootName rootTyp o).getLast?
  | none => by simp [processOpt, failingOpt]
  | some n => by
    have h := processNode_err rootName rootTyp n
    rcases hn : processNode rootName rootTyp n with ⟨n', ts, e⟩
    rw [hn] at h
    simp only [processOpt, hn, failingOpt]
    simpa using h

end

/-! ## Inversion lemmas for processActionNode -/

theorem actionErr_self (rootName rootTyp : String) (p ln : Nat) (cmd : Command)
    (h : (getActionArgs cmd).2.1 = rootName) :
    actionErr rootName rootTyp p ln cmd = some ⟨p, "cyclic reference"⟩ := by
  simp [actionErr, processActionNode, h]

theorem processActionNode_self (rootName rootTyp : String) (p ln : Nat)
    (cmd : Command) (funcName : String)
    (h : (getActionArgs cmd).2.1 = rootName) :
    processActionNode rootName rootTyp p ln cmd funcName =
      .error ⟨p, "cyclic reference"⟩ := by
  simp [processActionNode, h]

theorem invalidFuncType_eq_false (typ funcName : String)
    (h1 : funcName ≠ renderFunc) (h2 : funcName ≠ partialFunc) :
    invalidFuncType typ funcName = false := by
  simp [invalidFuncType, h1, h2]

theorem processActionNode_ok_none (rootName rootTyp : String) (p ln : Nat)
    (cmd : Command) (funcName : String)
    (h : processActionNode rootName rootTyp p ln cmd funcName = .ok none) :
    (getActionArgs cmd).2.1 ≠ rootName ∧
      funcName ≠ partialFunc ∧ funcName ≠ renderFunc := by
  simp only [processActionNode] at h
  split_ifs at h with h1 h2 h3 h4 h5 h6
  all_goals simp only [Except.ok.injEq] at h
  all_goals try exact Option.noConfusion h
  exact ⟨h1, h3, h5⟩

theorem processActionNode_ok_some (rootName rootTyp : String) (p ln : Nat)
    (cmd : Command) (funcName : String) (m : Node)
    (h : processActionNode rootName rootTyp p ln cmd funcName = .ok (some m)) :
    ∃ p' ln' nm cmds', m = Node.tmpl p' ln' nm cmds' := by
  simp only [processActionNode] at h
  split_ifs at h with h1 h2 h3 h4 h5 h6
  all_goals simp only [Except.ok.injEq] at h
  all_goals try exact Option.noConfusion h
  all_goals simp only [Option.some.injEq] at h
  all_goals exact ⟨p, ln, _, _, h.symm⟩

theorem processActionNode_default (rootName rootTyp : String) (p ln : Nat)
    (cmd : Command) (funcName : String)
    (h1 : (getActionArgs cmd).2.1 ≠ rootName)
    (h2 : funcName ≠ partialFunc) (h3 : funcName ≠ renderFunc) :
    processActionNode rootName rootTyp p ln cmd funcName = .ok none := by
  simp [processActionNode, h1, h2, h3, invalidFuncType_eq_false _ _ h3 h2]

/-! ## Idempotence of the walk (rewritten trees are fixed points) -/

mutual

theorem processNode_idem (rootName rootTyp : String) :
    (n : Node) → ∀ n' ts, processNode rootName rootTyp n = (n', ts, none) →
      ∀ rootTyp2, processNode rootName rootTyp2 n' = (n', [], none)
  | Node.text s => by
    intro n' ts h t2
    simp only [processNode] at h
    have h1 := congrArg Prod.fst h
    simp at h1
    subst h1
    simp [processNode]
  | Node.tmpl p ln name cmds => by
    intro n' ts h t2
    simp only [processNode] at h
    have h1 := congrArg Prod.fst h
    simp at h1
    subst h1
    simp [processNode]
  | Node.action p ln cmds => by
    intro n' ts h t2
    cases cmds with
    | nil =>
      simp only [processNode] at h
      have h1 := congrArg Prod.fst h
      simp at h1
      subst h1
      simp [processNode]
    | cons cmd rest =>
      simp only [processNode] at h
      rcases hpa : processActionNode rootName rootTyp p ln cmd (getActionArgs cmd).1
        with e | repl
      · rw [hpa] at h
        simp at h
      · rw [hpa] at h
        cases repl with
        | some m =>
          simp only at h
          have h1 := congrArg Prod.fst h
          simp only at h1
          subst h1
          obtain ⟨p', ln', nm, cmds', rfl⟩ :=
            processActionNode_ok_some rootName rootTyp p ln cmd _ m hpa
          simp [processNode]
        | none =>
          simp only at h
          have h1 := congrArg Prod.fst h
          simp only at h1
          subst h1
          obtain ⟨g1, g2, g3⟩ := processActionNode_ok_none rootName rootTyp p ln cmd _ hpa
          simp only [processNode]
          rw [processActionNode_default rootName t2 p ln cmd _ g1 g2 g3]
          simp [g2, g3]
  | Node.withN ls el => by
    intro n' ts h t2
    rcases hls : processOpt rootName rootTyp ls with ⟨ls', ts1, e1⟩
    rcases hel : processOpt rootName rootTyp el with ⟨el', ts2, e2⟩
    simp only [processNode, hls, hel] at h
    have h1 := congrArg Prod.fst h
    have h2 := congrArg (fun x => x.2.2) h
    simp only at h1 h2
    subst h1
    rw [combine_err] at h2
    rcases e1 with _ | e1 <;> rcases e2 with _ | e2 <;> simp [Option.or] at h2
    have i1 := processOpt_idem rootName rootTyp ls ls' ts1 hls t2
    have i2 := processOpt_idem rootName rootTyp el el' ts2 hel t2
    simp [processNode, i1, i2, combine]
  | Node.ifN ls el => by
    intro n' ts h t2
    rcases hls : processOpt rootName rootTyp ls with ⟨ls', ts1, e1⟩
    rcases hel : processOpt rootName rootTyp el with ⟨el', ts2, e2⟩
    simp only [processNode, hls, hel] at h
    have h1 := congrArg Prod.fst h
    have h2 := congrArg (fun x => x.2.2) h
    simp only at h1 h2
    subst h1
    rw [combine_err] at h2
    rcases e1 with _ | e1 <;> rcases e2 with _ | e2 <;> simp [Option.or] at h2
    have i1 := processOpt_idem rootName rootTyp ls ls' ts1 hls t2
    have i2 := processOpt_idem rootName rootTyp el el' ts2 hel t2
    simp [processNode, i1, i2, combine]
  | Node.rangeN ls el => by
    intro n' ts h t2
    rcases hls : processOpt rootName rootTyp ls with ⟨ls', ts1, e1⟩
    rcases hel : processOpt rootName rootTyp el with ⟨el', ts2, e2⟩
    simp only [processNode, hls, hel] at h
    have h1 := congrArg Prod.fst h
    have h2 := congrArg (fun x => x.2.2) h
    simp only at h1 h2
    subst h1
    rw [combine_err] at h2
    rcases e1 with _ | e1 <;> rcases e2 with _ | e2 <;> simp [Option.or] at h2
    have i1 := processOpt_idem rootName rootTyp ls ls' ts1 hls t2
    have i2 := processOpt_idem rootName rootTyp el el' ts2 hel t2
    simp [processNode, i1, i2, combine]
  | Node.list ns => by
    intro n' ts h t2
    rcases hns : processList rootName rootTyp ns with ⟨ns', ts1, e1⟩
    simp only [processNode, hns] at h
    have h1 := congrArg Prod.fst h
    have h2 := congrArg (fun x => x.2.2) h
    simp only at h1 h2
    subst h1
    rcases e1 with _ | e1
    · have i1 := processList_idem rootName rootTyp ns ns' ts1 hns t2
      simp [processNode, i1]
    · simp at h2

theorem processList_idem (rootName rootTyp : String) :
    (ns : List Node) → ∀ ns' ts, processList rootName rootTyp ns = (ns', ts, none) →
      ∀ rootTyp2, processList rootName rootTyp2 ns' = (ns', [], none)
  | [] => by
    intro ns' ts h t2
    simp only [processList] at h
    have h1 := congrArg Prod.fst h
    simp at h1
    subst h1
    simp [processList]
  | n :: rest => by
    intro ns' ts h t2
    rcases hn : processNode rootName rootTyp n with ⟨n', ts1, e1⟩
    rcases hr : processList rootName rootTyp rest with ⟨rest', ts2, e2⟩
    simp only [processList, hn, hr] at h
    have h1 := congrArg Prod.fst h
    have h2 := congrArg (fun x => x.2.2) h
    simp only at h1 h2
    subst h1
    rw [combine_err] at h2
    rcases e1 with _ | e1 <;> rcases e2 with _ | e2 <;> simp [Option.or] at h2
    have i1 := processNode_idem rootName rootTyp n n' ts1 hn t2
    have i2 := processList_idem rootName rootTyp rest rest' ts2 hr t2
    simp [processList, i1, i2, combine]

theorem processOpt_idem (rootName rootTyp : String) :
    (o : Option Node) → ∀ o' ts, processOpt rootName rootTyp o = (o', ts, none) →
      ∀ rootTyp2, processOpt rootName rootTyp2 o' = (o', [], none)
  | none => by
    intro o' ts h t2
    simp only [processOpt] at h
    have h1 := congrArg Prod.fst h
    simp at h1
    subst h1
    simp [processOpt]
  | some n => by
    intro o' ts h t2
    rcases hn : processNode rootName rootTyp n with ⟨n', ts1, e1⟩
    simp only [processOpt, hn] at h
    have h1 := congrArg Prod.fst h
    have h2 := congrArg (fun x => x.2.2) h
    simp only at h1 h2
    subst h1
    rcases e1 with _ | e1
    · have i1 := processNode_idem rootName rootTyp n n' ts1 hn t2
      simp [processOpt, i1]
    · simp at h2

end

/-! ## Failure propagation lemmas -/

theorem actionErr_isSome_of_invalid (rootName rootTyp : String) (p ln : Nat)
    (cmd : Command) (h : invalidFuncType rootTyp (getActionArgs cmd).1 = true) :
    (actionErr rootName rootTyp p ln cmd).isSome := by
  by_cases hn : (getActionArgs cmd).2.1 = rootName
  · rw [actionErr_self rootName rootTyp p ln cmd hn]
    rfl
  · simp [actionErr, processActionNode, hn, h]

mutual

theorem failing_ne_nil_of_selfTarget (rootName rootTyp : String) :
    (n : Node) → hasSelfTarget rootName n = true →
      failing rootName rootTyp n ≠ []
  | Node.action p ln cmds => by
    cases cmds with
    | nil => intro h; simp [hasSelfTarget] at h
    | cons cmd rest =>
      intro h
      simp only [hasSelfTarget, Bool.and_eq_true, Bool.or_eq_true,
        decide_eq_true_eq] at h
      rw [show failing rootName rootTyp (Node.action p ln (cmd :: rest)) =
        (match actionErr rootName rootTyp p ln cmd with
          | some e => [e] | none => []) from by simp [failing]]
      rw [actionErr_self rootName rootTyp p ln cmd h.2]
      simp
  | Node.withN ls el => by
    intro h
    simp only [hasSelfTarget, Bool.or_eq_true] at h
    simp only [failing]
    rcases h with h | h
    · have := failingOpt_ne_nil_of_selfTarget rootName rootTyp ls h
      simp [this]
    · have := failingOpt_ne_nil_of_selfTarget rootName rootTyp el h
      simp [this]
  | Node.list ns => by
    intro h
    simp only [hasSelfTarget] at h
    simp only [failing]
    exact failingList_ne_nil_of_selfTarget rootName rootTyp ns h
  | Node.ifN ls el => by
    intro h
    simp only [hasSelfTarget, Bool.or_eq_true] at h
    simp only [failing]
    rcases h with h | h
    · have := failingOpt_ne_nil_of_selfTarget rootName rootTyp ls h
      simp [this]
    · have := failingOpt_ne_nil_of_selfTarget rootName rootTyp el h
      simp [this]
  | Node.rangeN ls el => by
    intro h
    simp only [hasSelfTarget, Bool.or_eq_true] at h
    simp only [failing]
    rcases h with h | h
    · have := failingOpt_ne_nil_of_selfTarget rootName rootTyp ls h
      simp [this]
    · have := failingOpt_ne_nil_of_selfTarget rootName rootTyp el h
      simp [this]
  | Node.text s => by intro h; simp [hasSelfTarget] at h
  | Node.tmpl p ln name cmds => by intro h; simp [hasSelfTarget] at h

theorem failingList_ne_nil_of_selfTarget (rootName rootTyp : String) :
    (ns : List Node) → hasSelfTargetList rootName ns = true →
      failingList rootName rootTyp ns ≠ []
  | [] => by intro h; simp [hasSelfTargetList] at h
  | n :: rest => by
    intro h
    simp only [hasSelfTargetList, Bool.or_eq_true] at h
    simp only [failingList]
    rcases h with h | h
    · have := failing_ne_nil_of_selfTarget rootName rootTyp n h
      simp [this]
    · have := failingList_ne_nil_of_selfTarget rootName rootTyp rest h
      simp [this]

theorem failingOpt_ne_nil_of_selfTarget (rootName rootTyp : String) :
    (o : Option Node) → hasSelfTargetOpt rootName o = true →
      failingOpt rootName rootTyp o ≠ []
  | none => by intro h; simp [hasSelfTargetOpt] at h
  | some n => by
    intro h
    simp only [hasSelfTargetOpt] at h
    simp only [failingOpt]
    exact failing_ne_nil_of_selfTarget rootName rootTyp n h

end

mutual

theorem failing_ne_nil_of_invalidCall (rootTyp : String) (fns : List String)
    (hinv : ∀ f ∈ fns, invalidFuncType rootTyp f = true) (rootName : String) :
    (n : Node) → containsCall fns n = true →
      failing rootName rootTyp n ≠ []
  | Node.action p ln cmds => by
    cases cmds with
    | nil => intro h; simp [containsCall] at h
    | cons cmd rest =>
      intro h
      simp only [containsCall] at h
      have hmem : (getActionArgs cmd).1 ∈ fns := by
        simpa using h
      have hsome := actionErr_isSome_of_invalid rootName rootTyp p ln cmd
        (hinv _ hmem)
      rw [show failing rootName rootTyp (Node.action p ln (cmd :: rest)) =
        (match actionErr rootName rootTyp p ln cmd with
          | some e => [e] | none => []) from by simp [failing]]
      rcases hx : actionErr rootName rootTyp p ln cmd with _ | e
      · rw [hx] at hsome; simp at hsome
      · simp
  | Node.withN ls el => by
    intro h
    simp only [containsCall, Bool.or_eq_true] at h
    simp only [failing]
    rcases h with h | h
    · have := failingOpt_ne_nil_of_invalidCall rootTyp fns hinv rootName ls h
      simp [this]
    · have := failingOpt_ne_nil_of_invalidCall rootTyp fns hinv rootName el h
      simp [this]
  | Node.list ns => by
    intro h
    simp only [containsCall] at h
    simp only [failing]
    exact failingList_ne_nil_of_invalidCall rootTyp fns hinv rootName ns h
  | Node.ifN ls el => by
    intro h
    simp only [containsCall, Bool.or_eq_true] at h
    simp only [failing]
    rcases h with h | h
    · have := failingOpt_ne_nil_of_invalidCall rootTyp fns hinv rootName ls h
      simp [this]
    · have := failingOpt_ne_nil_of_invalidCall rootTyp fns hinv rootName el h
      simp [this]
  | Node.rangeN ls el => by
    intro h
    simp only [containsCall, Bool.or_eq_true] at h
    simp only [failing]
    rcases h with h | h
    · have := failingOpt_ne_nil_of_invalidCall rootTyp fns hinv rootName ls h
      simp [this]
    · have := failingOpt_ne_nil_of_invalidCall rootTyp fns hinv rootName el h
      simp [this]
  | Node.text s => by intro h; simp [containsCall] at h
  | Node.tmpl p ln name cmds => by intro h; simp [containsCall] at h

theorem failingList_ne_nil_of_invalidCall (rootTyp : String) (fns : List String)
    (hinv : ∀ f ∈ fns, invalidFuncType rootTyp f = true) (rootName : String) :
    (ns : List Node) → containsCallList fns ns = true →
      failingList rootName rootTyp ns ≠ []
  | [] => by intro h; simp [containsCallList] at h
  | n :: rest => by
    intro h
    simp only [containsCallList, Bool.or_eq_true] at h
    simp only [failingList]
    rcases h with h | h
    · have := failing_ne_nil_of_invalidCall rootTyp fns hinv rootName n h
      simp [this]
    · have := failingList_ne_nil_of_invalidCall rootTyp fns hinv rootName rest h
      simp [this]

theorem failingOpt_ne_nil_of_invalidCall (rootTyp : String) (fns : List String)
    (hinv : ∀ f ∈ fns, invalidFuncType rootTyp f = true) (rootName : String) :
    (o : Option Node) → containsCallOpt fns o = true →
      failingOpt rootName rootTyp o ≠ []
  | none => by intro h; simp [containsCallOpt] at h
  | some n => by
    intro h
    simp only [containsCallOpt] at h
    simp only [failingOpt]
    exact failing_ne_nil_of_invalidCall rootTyp fns hinv rootName n h

end

theorem getLast?_some_of_ne_nil {α : Type} {l : List α} (h : l ≠ []) :
    ∃ e, l.getLast? = some e :=
  ⟨l.getLast h, List.getLast?_eq_getLast l h⟩

theorem mem_of_getLast?_some {α : Type} {l : List α} {e : α}
    (h : l.getLast? = some e) : e ∈ l := by
  obtain ⟨hne, heq⟩ := List.mem_getLast?_eq_getLast (l := l) (x := e) h
  rw [heq]
  exact List.getLast_mem hne

/-- The error of `processTree` is the error of `processNode` wrapped with
name, position (via `pos`) and role. -/
theorem processTree_err (t : templateFile) :
    (processTree t).2.2 = ((processNode t.name t.typ t.tree).2.2).map
      (fun e => ⟨t.name, (pos t.body e.pos).1, (pos t.body e.pos).2, t.typ, e⟩) := by
  rcases h : processNode t.name t.typ t.tree with ⟨tree', ts, err⟩
  simp only [processTree, h]
  cases err <;> simp

/-! ## Claim C1 -/

/-- Claim C1: for every template file, in every role, rewriting a tree
that contains a render or partial marker invocation whose literal string
target equals the file's own name fails, at any nesting depth inside
conditionals, loops, with-blocks or nested lists; the self-targeting
invocation itself always produces the cyclic-reference error (for any
callee and any role, the cyclic check runs first), and the reported
error is the cyclic-reference error whenever every failing invocation in
the tree is a cyclic one (in particular when the self-reference is the
only failing invocation). -/
theorem c1_self_reference_fails_cyclic :
    (∀ t : templateFile, hasSelfTarget t.name t.tree = true →
      (processTree t).2.2.isSome = true) ∧
    (∀ (rootName rootTyp : String) (p ln : Nat) (cmd : Command) (funcName : String),
      (getActionArgs cmd).2.1 = rootName →
      processActionNode rootName rootTyp p ln cmd funcName =
        .error ⟨p, "cyclic reference"⟩) ∧
    (∀ t : templateFile, hasSelfTarget t.name t.tree = true →
      (∀ e ∈ failing t.name t.typ t.tree, e.message = "cyclic reference") →
      ∃ er, (processTree t).2.2 = some er ∧ er.cause.message = "cyclic reference") := by
  refine ⟨?_, ?_, ?_⟩
  · intro t h
    have hne := failing_ne_nil_of_selfTarget t.name t.typ t.tree h
    obtain ⟨e, he⟩ := getLast?_some_of_ne_nil hne
    rw [processTree_err, processNode_err, he]
    rfl
  · intro rootName rootTyp p ln cmd funcName h
    exact processActionNode_self rootName rootTyp p ln cmd funcName h
  · intro t h hall
    have hne := failing_ne_nil_of_selfTarget t.name t.typ t.tree h
    obtain ⟨e, he⟩ := getLast?_some_of_ne_nil hne
    have hmem := mem_of_getLast?_some he
    refine ⟨⟨t.name, (pos t.body e.pos).1, (pos t.body e.pos).2, t.typ, e⟩, ?_, hall e hmem⟩
    rw [processTree_err, processNode_err, he]
    rfl

/-- Witness for C1: a view whose tree nests `partial "a.html"` inside an
if-block inside the file `a.html` itself fails, with the cyclic error. -/
theorem c1_self_reference_fails_cyclic_witness :
    (processTree
      { name := "a.html", typ := viewType, body := [],
        tree := Node.list [Node.ifN
          (some (Node.list [Node.action 3 1 [⟨[Arg.ident "partial", Arg.str "a.html"]⟩]]))
          none],
        defines := [] }).2.2.isSome = true ∧
    (∃ er, (processTree
      { name := "a.html", typ := viewType, body := [],
        tree := Node.list [Node.ifN
          (some (Node.list [Node.action 3 1 [⟨[Arg.ident "partial", Arg.str "a.html"]⟩]]))
          none],
        defines := [] }).2.2 = some er ∧ er.cause.message = "cyclic reference") := by
  constructor
  · apply c1_self_reference_fails_cyclic.1
    simp [hasSelfTarget, hasSelfTargetList, hasSelfTargetOpt, getActionArgs, partialFunc]
  · apply c1_self_reference_fails_cyclic.2.2
    · simp [hasSelfTarget, hasSelfTargetList, hasSelfTargetOpt, getActionArgs, partialFunc]
    · intro e he
      simp [failing, failingList, failingOpt, actionErr, processActionNode,
        getActionArgs] at he
      rw [he]

/-! ## Claim C10 -/

/-- Claim C10: the self-reference check applies to every action
invocation whose second argument is a literal string, not only to the
render/partial markers: any callee whose first string argument equals
the file's own name produces the cyclic-reference error (in every role),
a non-marker invocation with a different string argument is left
untouched with no error and no references, and a tree consisting of such
a self-naming non-marker invocation fails with the cyclic error. -/
theorem c10_cyclic_check_any_callee :
    (∀ (rootName rootTyp : String) (p ln : Nat) (cmd : Command) (funcName : String),
      funcName ≠ renderFunc → funcName ≠ partialFunc →
      (getActionArgs cmd).2.1 = rootName →
      processActionNode rootName rootTyp p ln cmd funcName =
        .error ⟨p, "cyclic reference"⟩) ∧
    (∀ (rootName rootTyp : String) (p ln : Nat) (cmd : Command),
      (getActionArgs cmd).1 ≠ renderFunc → (getActionArgs cmd).1 ≠ partialFunc →
      (getActionArgs cmd).2.1 ≠ rootName →
      processNode rootName rootTyp (Node.action p ln [cmd]) =
        (Node.action p ln [cmd], [], none)) ∧
    (∀ (t : templateFile) (p ln : Nat) (fn : String),
      fn ≠ renderFunc → fn ≠ partialFunc →
      t.tree = Node.list [Node.action p ln [⟨[Arg.ident fn, Arg.str t.name]⟩]] →
      ∃ er, (processTree t).2.2 = some er ∧ er.cause = ⟨p, "cyclic reference"⟩) := by
  refine ⟨?_, ?_, ?_⟩
  · intro rootName rootTyp p ln cmd funcName _ _ h
    exact processActionNode_self rootName rootTyp p ln cmd funcName h
  · intro rootName rootTyp p ln cmd h1 h2 h3
    have hd := processActionNode_default rootName rootTyp p ln cmd
      (getActionArgs cmd).1 h3 h2 h1
    simp [processNode, hd, h1, h2]
  · intro t p ln fn h1 h2 ht
    have hga : getActionArgs ⟨[Arg.ident fn, Arg.str t.name]⟩ = (fn, t.name, none) := by
      simp [getActionArgs]
    have hpa := processActionNode_self t.name t.typ p ln
      ⟨[Arg.ident fn, Arg.str t.name]⟩ fn (by rw [hga])
    refine ⟨⟨t.name, (pos t.body p).1, (pos t.body p).2, t.typ, ⟨p, "cyclic reference"⟩⟩, ?_, rfl⟩
    rw [processTree_err, ht]
    simp [processNode, processList, hga, hpa, combine]

/-- Witness for C10: an action calling a custom function `uppercase` with
the file's own name as string argument fails with the cyclic error, and
with a different string argument it is left untouched. -/
theorem c10_cyclic_check_any_callee_witness :
    processActionNode "a.html" viewType 7 2 ⟨[Arg.ident "uppercase", Arg.str "a.html"]⟩
        "uppercase" = .error ⟨7, "cyclic reference"⟩ ∧
    processNode "a.html" viewType
        (Node.action 7 2 [⟨[Arg.ident "uppercase", Arg.str "b.html"]⟩]) =
      (Node.action 7 2 [⟨[Arg.ident "uppercase", Arg.str "b.html"]⟩], [], none) ∧
    (∃ er, (processTree
      { name := "a.html", typ := viewType, body := [],
        tree := Node.list [Node.action 7 2 [⟨[Arg.ident "uppercase", Arg.str "a.html"]⟩]],
        defines := [] }).2.2 = some er ∧ er.cause = ⟨7, "cyclic reference"⟩) := by
  refine ⟨?_, ?_, ?_⟩
  · exact c10_cyclic_check_any_callee.1 "a.html" viewType 7 2 _ "uppercase"
      (by simp [renderFunc]) (by simp [partialFunc]) (by simp [getActionArgs])
  · exact c10_cyclic_check_any_callee.2.1 "a.html" viewType 7 2 _
      (by simp [getActionArgs, renderFunc]) (by simp [getActionArgs, partialFunc])
      (by simp [getActionArgs]; decide)
  · exact c10_cyclic_check_any_callee.2.2 _ 7 2 "uppercase"
      (by simp [renderFunc]) (by simp [partialFunc]) rfl

/-! ## Claim C2 -/

/-- Counterexample to C2 as stated: a View whose tree contains the render
invocation `render "v.html"` targeting the file's own name does NOT fail
with the illegal-marker error `render not supported` — the cyclic check
runs first, so the error is `cyclic reference`. -/
theorem c2_illegal_marker_counterexample :
    (∃ er, (processTree
      { name := "v.html", typ := viewType, body := [],
        tree := Node.list [Node.action 0 0 [⟨[Arg.ident "render", Arg.str "v.html"]⟩]],
        defines := [] }).2.2 = some er ∧
      er.cause.message = "cyclic reference") ∧
    "cyclic reference" ≠ "render not supported" := by
  constructor
  · have hga : getActionArgs ⟨[Arg.ident "render", Arg.str "v.html"]⟩ =
        ("render", "v.html", none) := by
      simp [getActionArgs]
    have hpa := processActionNode_self "v.html" viewType 0 0
      ⟨[Arg.ident "render", Arg.str "v.html"]⟩ "render" (by rw [hga])
    refine ⟨⟨"v.html", 1, 1, viewType, ⟨0, "cyclic reference"⟩⟩, ?_, rfl⟩
    rw [processTree_err]
    simp [processNode, processList, hga, hpa, combine, pos, posLoop]
  · decide

/-- Claim C2, amended: rewriting a View tree that contains a render
invocation always fails, and rewriting a Partial tree that contains a
render or partial invocation always fails (so construction aborts); the
error produced at such an invocation is the illegal-marker error
`<marker> not supported` when its target does not equal the file's own
name — a self-targeting invocation produces the cyclic-reference error
instead (and, when several invocations fail, the walk reports the last
failing one). -/
theorem c2_illegal_marker_amended :
    (∀ t : templateFile, t.typ = viewType →
      containsCall [renderFunc] t.tree = true →
      (processTree t).2.2.isSome = true) ∧
    (∀ t : templateFile, t.typ = partialType →
      containsCall [renderFunc, partialFunc] t.tree = true →
      (processTree t).2.2.isSome = true) ∧
    (∀ (rootName rootTyp : String) (p ln : Nat) (cmd : Command) (funcName : String),
      (getActionArgs cmd).2.1 ≠ rootName →
      invalidFuncType rootTyp funcName = true →
      processActionNode rootName rootTyp p ln cmd funcName =
        .error ⟨p, funcName ++ " not supported"⟩) := by
  refine ⟨?_, ?_, ?_⟩
  · intro t htyp h
    have hinv : ∀ f ∈ [renderFunc], invalidFuncType viewType f = true := by
      intro f hf
      simp at hf
      subst hf
      rfl
    have hne := failing_ne_nil_of_invalidCall viewType [renderFunc] hinv t.name
      t.tree h
    obtain ⟨e, he⟩ := getLast?_some_of_ne_nil hne
    rw [processTree_err, htyp, processNode_err, he]
    rfl
  · intro t htyp h
    have hinv : ∀ f ∈ [renderFunc, partialFunc], invalidFuncType partialType f = true := by
      intro f hf
      simp at hf
      rcases hf with hf | hf <;> subst hf <;> rfl
    have hne := failing_ne_nil_of_invalidCall partialType [renderFunc, partialFunc]
      hinv t.name t.tree h
    obtain ⟨e, he⟩ := getLast?_some_of_ne_nil hne
    rw [processTree_err, htyp, processNode_err, he]
    rfl
  · intro rootName rootTyp p ln cmd funcName h1 h2
    simp [processActionNode, h1, h2]

/-- Witness for the amended C2: a View calling `render "x.html"` fails;
a Partial calling `partial "x.html"` fails; the invocation-level error is
the illegal-marker message. -/
theorem c2_illegal_marker_amended_witness :
    (processTree
      { name := "v.html", typ := viewType, body := [],
        tree := Node.list [Node.action 0 0 [⟨[Arg.ident "render", Arg.str "x.html"]⟩]],
        defines := [] }).2.2.isSome = true ∧
    (processTree
      { name := "p.html", typ := partialType, body := [],
        tree := Node.list [Node.action 0 0 [⟨[Arg.ident "partial", Arg.str "x.html"]⟩]],
        defines := [] }).2.2.isSome = true ∧
    processActionNode "v.html" viewType 0 0 ⟨[Arg.ident "render", Arg.str "x.html"]⟩
        "render" = .error ⟨0, "render not supported"⟩ := by
  refine ⟨?_, ?_, ?_⟩
  · exact c2_illegal_marker_amended.1 _ rfl
      (by simp [containsCall, containsCallList, containsCallOpt, getActionArgs, renderFunc])
  · exact c2_illegal_marker_amended.2.1 _ rfl
      (by simp [containsCall, containsCallList, containsCallOpt, getActionArgs, partialFunc])
  · exact c2_illegal_marker_amended.2.2 "v.html" viewType 0 0 _ "render"
      (by simp [getActionArgs]; decide) (by rfl)

/-! ## Claim C4 -/

/-- Counterexample to C4 as stated: a render invocation with no target
name does not always succeed — in a View it fails with the
illegal-marker error (the repository's own test
`TestRender_ViewInvalidRender` expects this failure). -/
theorem c4_missing_target_counterexample :
    (processTree
      { name := "v.html", typ := viewType, body := [],
        tree := Node.list [Node.action 0 0 [⟨[Arg.ident "render"]⟩]],
        defines := [] }).2.2 =
      some ⟨"v.html", 1, 1, viewType, ⟨0, "render not supported"⟩⟩ := by
  have hga : getActionArgs ⟨[Arg.ident "render"]⟩ = ("render", "", none) := by
    simp [getActionArgs]
  have hpa : processActionNode "v.html" viewType 0 0 ⟨[Arg.ident "render"]⟩ "render" =
      .error ⟨0, "render not supported"⟩ := by
    simp [processActionNode, hga, invalidFuncType, viewType, renderFunc]
  rw [processTree_err]
  simp [processNode, processList, hga, hpa, combine, pos, posLoop]

/-- Claim C4, amended: in a role where the marker is legal, omitting the
target behaves as claimed — a partial invocation with an absent or empty
target fails with the missing-target error (in the Layout and View
roles; in the Partial role the illegal-marker error is reported for it),
and a render invocation with no target succeeds in the Layout role,
producing a template invocation carrying the literal name `body` and no
recorded reference; in the View and Partial roles a render invocation
instead fails with the illegal-marker error. File names are nonempty
(an empty root name would make an absent target self-referential). -/
theorem c4_missing_target_amended :
    (∀ (rootName rootTyp : String) (p ln : Nat) (cmd : Command),
      rootName ≠ "" → (getActionArgs cmd).2.1 = "" →
      (rootTyp = layoutType ∨ rootTyp = viewType) →
      processActionNode rootName rootTyp p ln cmd partialFunc =
        .error ⟨p, "path to partial file is not specified"⟩) ∧
    (∀ (rootName : String) (p ln : Nat) (cmd : Command),
      rootName ≠ "" → (getActionArgs cmd).2.1 = "" →
      processActionNode rootName partialType p ln cmd partialFunc =
        .error ⟨p, "partial not supported"⟩) ∧
    (∀ (rootName : String) (p ln : Nat) (cmd : Command),
      rootName ≠ "" → (getActionArgs cmd).2.1 = "" →
      processActionNode rootName layoutType p ln cmd renderFunc =
        .ok (some (Node.tmpl p ln "body" [⟨[Arg.dot]⟩]))) ∧
    (∀ (rootName rootTyp : String) (p ln : Nat) (cmd : Command),
      rootName ≠ "" → (getActionArgs cmd).2.1 = "" →
      (rootTyp = viewType ∨ rootTyp = partialType) →
      processActionNode rootName rootTyp p ln cmd renderFunc =
        .error ⟨p, "render not supported"⟩) ∧
    (∀ (t : templateFile) (p ln : Nat) (cmd : Command),
      t.name ≠ "" → t.typ = layoutType →
      (getActionArgs cmd).1 = renderFunc → (getActionArgs cmd).2.1 = "" →
      t.tree = Node.list [Node.action p ln [cmd]] →
      processTree t =
        ({ t with tree := Node.list [Node.tmpl p ln "body" [⟨[Arg.dot]⟩]] }, [], none)) := by
  refine ⟨?_, ?_, ?_, ?_, ?_⟩
  · intro rootName rootTyp p ln cmd hroot hfile htyp
    have hne : ¬(("" : String) = rootName) := fun hx => hroot hx.symm
    have hinv : invalidFuncType rootTyp partialFunc = false := by
      rcases htyp with h | h <;> subst h <;> rfl
    simp [processActionNode, hfile, hne, hinv]
  · intro rootName p ln cmd hroot hfile
    have hne : ¬(("" : String) = rootName) := fun hx => hroot hx.symm
    have hinv : invalidFuncType partialType partialFunc = true := rfl
    simp [processActionNode, hfile, hne, hinv]
    rfl
  · intro rootName p ln cmd hroot hfile
    have hne : ¬(("" : String) = rootName) := fun hx => hroot hx.symm
    have hinv : invalidFuncType layoutType "render" = false := rfl
    simp [processActionNode, hfile, hne, hinv, partialFunc, renderFunc]
  · intro rootName rootTyp p ln cmd hroot hfile htyp
    have hne : ¬(("" : String) = rootName) := fun hx => hroot hx.symm
    have hinv : invalidFuncType rootTyp renderFunc = true := by
      rcases htyp with h | h <;> subst h <;> rfl
    simp [processActionNode, hfile, hne, hinv]
    rfl
  · intro t p ln cmd hroot htyp hfn hfile htree
    have hne : ¬(("" : String) = t.name) := fun hx => hroot hx.symm
    have hpa : processActionNode t.name t.typ p ln cmd (getActionArgs cmd).1 =
        .ok (some (Node.tmpl p ln "body" [⟨[Arg.dot]⟩])) := by
      rw [hfn, htyp]
      have hinv : invalidFuncType layoutType "render" = false := rfl
      simp [processActionNode, hfile, hne, hinv, partialFunc, renderFunc]
    simp only [processTree, htree, processNode, processList, hpa]
    simp [combine, hfn, hfile, renderFunc, partialFunc]

/-- Witness for the amended C4 (and concrete instances of each branch):
target-less partial fails in layout and view roles with the
missing-target error, is reported illegal in a partial; target-less
render succeeds as `body` in the layout role and fails in a view; a
layout tree `{{render}}` rewrites to the `body` template invocation with
no references. -/
theorem c4_missing_target_amended_witness :
    processActionNode "l.html" layoutType 2 1 ⟨[Arg.ident "partial"]⟩ partialFunc =
      .error ⟨2, "path to partial file is not specified"⟩ ∧
    processActionNode "p.html" partialType 2 1 ⟨[Arg.ident "partial"]⟩ partialFunc =
      .error ⟨2, "partial not supported"⟩ ∧
    processActionNode "l.html" layoutType 2 1 ⟨[Arg.ident "render"]⟩ renderFunc =
      .ok (some (Node.tmpl 2 1 "body" [⟨[Arg.dot]⟩])) ∧
    processActionNode "v.html" viewType 2 1 ⟨[Arg.ident "render"]⟩ renderFunc =
      .error ⟨2, "render not supported"⟩ ∧
    processTree
      { name := "l.html", typ := layoutType, body := [],
        tree := Node.list [Node.action 2 1 [⟨[Arg.ident "render"]⟩]],
        defines := [] } =
      ({ name := "l.html", typ := layoutType, body := [],
         tree := Node.list [Node.tmpl 2 1 "body" [⟨[Arg.dot]⟩]],
         defines := [] }, [], none) := by
  refine ⟨?_, ?_, ?_, ?_, ?_⟩
  · exact c4_missing_target_amended.1 "l.html" layoutType 2 1 _
      (by decide) (by simp [getActionArgs]) (Or.inl rfl)
  · exact c4_missing_target_amended.2.1 "p.html" 2 1 _
      (by decide) (by simp [getActionArgs])
  · exact c4_missing_target_amended.2.2.1 "l.html" 2 1 _
      (by decide) (by simp [getActionArgs])
  · exact c4_missing_target_amended.2.2.2.1 "v.html" viewType 2 1 _
      (by decide) (by simp [getActionArgs]) (Or.inl rfl)
  · exact c4_missing_target_amended.2.2.2.2 _ 2 1 ⟨[Arg.ident "render"]⟩
      (by decide) rfl (by simp [getActionArgs, renderFunc]) (by simp [getActionArgs]) rfl

theorem posLoop_eq_specScan :
    ∀ (body : List Char) (i p line col : Nat),
      posLoop body i p line col =
        (specCharsBeforeOffset body i p).foldl
          (fun lc c => if c = '\n' then (lc.1 + 1, 1) else (lc.1, lc.2 + 1)) (line, col)
  | [], i, p, line, col => by simp [posLoop, specCharsBeforeOffset]
  | c :: rest, i, p, line, col => by
    by_cases h : p ≤ i
    · have h2 : ¬(i < p) := by omega
      simp [posLoop, specCharsBeforeOffset, h, h2]
    · have h2 : i < p := by omega
      by_cases hc : c = '\n'
      · simp only [posLoop, specCharsBeforeOffset, if_neg h, if_pos h2, if_pos hc,
          List.foldl_cons]
        rw [posLoop_eq_specScan rest (i + c.utf8Size) p (line + 1) 1]
      · simp only [posLoop, specCharsBeforeOffset, if_neg h, if_pos h2, if_neg hc,
          List.foldl_cons]
        rw [posLoop_eq_specScan rest (i + c.utf8Size) p line (col + 1)]

/-- Claim C6: for every source and byte offset, the line/column computed
by `pos` (used by `processTree` for position-bearing errors) equals the
spec's reference scan: start at line 1 column 1, visit the characters up
to (not including) the offset, a newline increments the line and resets
the column to 1, every other character increments the column by 1. -/
theorem c6_pos_line_col_scan :
    ∀ (body : List Char) (p : Nat), pos body p = specPosScan body p := by
  intro body p
  rw [pos, specPosScan, posLoop_eq_specScan]

/-! ## Claim C9 -/

/-- Claim C9: tree rewriting is idempotent. After a successful rewrite of
a template file, rewriting the file again — even after its role tag has
been restamped, as `parsePartial` does when a file is later referenced
as a partial — leaves the tree unchanged, reports no error, and returns
an empty list of marker references, because marker action nodes were
replaced by template-invocation nodes that the walk does not match. -/
theorem c9_rewrite_idempotent :
    ∀ (t t' : templateFile) (ts : List nestedFile),
      processTree t = (t', ts, none) →
      ∀ typ2 : String,
        processTree { t' with typ := typ2 } = ({ t' with typ := typ2 }, [], none) := by
  intro t t' ts h typ2
  rcases h1 : processNode t.name t.typ t.tree with ⟨tree', ts1, err⟩
  simp only [processTree, h1] at h
  cases err with
  | some e => simp at h
  | none =>
    simp only [Prod.mk.injEq] at h
    obtain ⟨ht', hts, -⟩ := h
    subst ht'
    have hidem := processNode_idem t.name t.typ t.tree tree' ts1 h1 typ2
    simp only [processTree]
    simp [hidem]

/-- Witness for C9: the rewritten form of a view containing
`partial "x.html"`, restamped as a partial, is a fixed point of the
rewrite with no references. -/
theorem c9_rewrite_idempotent_witness :
    processTree
      { name := "a.html", typ := partialType, body := [],
        tree := Node.list [Node.tmpl 0 0 "x.html" [⟨[Arg.dot]⟩]],
        defines := [] } =
      ({ name := "a.html", typ := partialType, body := [],
         tree := Node.list [Node.tmpl 0 0 "x.html" [⟨[Arg.dot]⟩]],
         defines := [] }, [], none) := by
  have h := c9_rewrite_idempotent
    { name := "a.html", typ := viewType, body := [],
      tree := Node.list [Node.action 0 0 [⟨[Arg.ident "partial", Arg.str "x.html"]⟩]],
      defines := [] }
    { name := "a.html", typ := viewType, body := [],
      tree := Node.list [Node.tmpl 0 0 "x.html" [⟨[Arg.dot]⟩]],
      defines := [] }
    [⟨"x.html", partialFunc⟩]
    (by
      have hga : getActionArgs ⟨[Arg.ident "partial", Arg.str "x.html"]⟩ =
          ("partial", "x.html", none) := by
        simp [getActionArgs]
      have hpa : processActionNode "a.html" viewType 0 0
          ⟨[Arg.ident "partial", Arg.str "x.html"]⟩ "partial" =
          .ok (some (Node.tmpl 0 0 "x.html" [⟨[Arg.dot]⟩])) := by
        simp [processActionNode, hga, invalidFuncType, viewType, partialType,
          renderFunc, partialFunc]
      simp [processTree, processNode, processList, hga, hpa, combine, partialFunc])
    partialType
  exact h

/-! ## Association-list lemmas -/

theorem lookupTS_updateTS_self {α : Type} :
    ∀ (g : List (String × α)) (k : String) (v w : α),
      lookupTS g k = some w → lookupTS (updateTS g k v) k = some v
  | [], k, v, w => by simp [lookupTS]
  | (k0, v0) :: rest, k, v, w => by
    intro h
    by_cases hk : k0 = k
    · simp [lookupTS, updateTS, hk]
    · simp only [lookupTS, updateTS, if_neg hk] at h ⊢
      exact lookupTS_updateTS_self rest k v w h

theorem lookupTS_updateTS_none {α : Type} :
    ∀ (g : List (String × α)) (k n : String) (v : α),
      lookupTS g n = none → lookupTS (updateTS g k v) n = none
  | [], k, n, v => by simp [lookupTS, updateTS]
  | (k0, v0) :: rest, k, n, v => by
    intro h
    simp only [lookupTS] at h
    by_cases hn : k0 = n
    · simp [hn] at h
    · simp only [if_neg hn] at h
      by_cases hk : k0 = k
      · subst hk
        simp only [updateTS, if_pos rfl, lookupTS, if_neg hn]
        exact lookupTS_updateTS_none rest k0 n v h
      · simp only [updateTS, if_neg hk, lookupTS, if_neg hn]
        exact lookupTS_updateTS_none rest k n v h

theorem lookupTS_updateTS_other {α : Type} :
    ∀ (g : List (String × α)) (k n : String) (v : α),
      ¬(k = n) → lookupTS (updateTS g k v) n = lookupTS g n
  | [], k, n, v => by simp [lookupTS, updateTS]
  | (k0, v0) :: rest, k, n, v => by
    intro h
    by_cases hk : k0 = k
    · subst hk
      simp only [updateTS, if_pos rfl, lookupTS, if_neg h]
      exact lookupTS_updateTS_other rest k0 n v h
    · simp only [updateTS, if_neg hk, lookupTS]
      by_cases hn : k0 = n
      · simp [hn]
      · simp only [if_neg hn]
        exact lookupTS_updateTS_other rest k n v h

theorem lookupTS_append_single {α : Type} :
    ∀ (g : List (String × α)) (k n : String) (v : α),
      lookupTS (g ++ [(k, v)]) n =
        match lookupTS g n with
        | some w => some w
        | none => if k = n then some v else none
  | [], k, n, v => by simp [lookupTS]
  | (k0, v0) :: rest, k, n, v => by
    by_cases hn : k0 = n
    · simp [lookupTS, hn]
    · simp only [List.cons_append, lookupTS, if_neg hn]
      exact lookupTS_append_single rest k n v

theorem lookupTS_AddParseTree (g : List (String × Node)) (k n : String) (v : Node) :
    lookupTS (AddParseTree g k v) n = if k = n then some v else lookupTS g n := by
  rcases hg : lookupTS g k with _ | w
  · simp only [AddParseTree, hg]
    rw [lookupTS_append_single]
    by_cases hk : k = n
    · subst hk
      simp [hg]
    · rcases hx : lookupTS g n with _ | u <;> simp [hx, hk]
  · simp only [AddParseTree, hg]
    by_cases hk : k = n
    · subst hk
      rw [if_pos rfl]
      exact lookupTS_updateTS_self g _ v w hg
    · rw [if_neg hk]
      exact lookupTS_updateTS_other g k n v hk

/-- The empty placeholder sub-template (parsed from `""`, stamped
partial) passes `parsePartial` unchanged. -/
theorem parsePartialFile_placeholder (n : String) :
    parsePartialFile
      { name := n, typ := partialType, body := [], tree := Node.list [],
        defines := [] } =
      ({ name := n, typ := partialType, body := [], tree := Node.list [],
         defines := [] }, none) := by
  simp [parsePartialFile, processTree, processNode, processList]

theorem parseLayoutRefs_preserves_none :
    ∀ (refs : List nestedFile) (root : templateSet)
      (grafts : List (String × Node)) (root' : templateSet)
      (grafts' : List (String × Node)) (k : String),
      parseLayoutRefs root grafts refs = .ok (root', grafts') →
      lookupTS root k = none → lookupTS root' k = none
  | [], root, grafts, root', grafts', k => by
    intro h hk
    simp only [parseLayoutRefs, Except.ok.injEq, Prod.mk.injEq] at h
    rw [← h.1]
    exact hk
  | ref :: rest, root, grafts, root', grafts', k => by
    intro h hk
    rcases hl : lookupTS root ref.name with _ | t
    · simp only [parseLayoutRefs, hl] at h
      split_ifs at h with htyp
      rw [parsePartialFile_placeholder ref.name] at h
      exact parseLayoutRefs_preserves_none rest root _ root' grafts' k h hk
    · simp only [parseLayoutRefs, hl] at h
      rcases hp : parsePartialFile { t with typ := partialType } with ⟨t2, e⟩
      rw [hp] at h
      cases e with
      | some e0 => exact Except.noConfusion h
      | none =>
        exact parseLayoutRefs_preserves_none rest _ _ root' grafts' k h
          (lookupTS_updateTS_none root ref.name k t2 hk)

theorem parseLayoutRefs_append :
    ∀ (pre : List nestedFile) (root : templateSet)
      (grafts : List (String × Node)) (suf : List nestedFile),
      parseLayoutRefs root grafts (pre ++ suf) =
        match parseLayoutRefs root grafts pre with
        | .error e => .error e
        | .ok (r, g) => parseLayoutRefs r g suf
  | [], root, grafts, suf => by simp [parseLayoutRefs]
  | ref :: rest, root, grafts, suf => by
    rcases hl : lookupTS root ref.name with _ | t
    · simp only [List.cons_append, parseLayoutRefs, hl]
      split_ifs with htyp
      · rfl
      · rw [parsePartialFile_placeholder ref.name]
        exact parseLayoutRefs_append rest root _ suf
    · simp only [List.cons_append, parseLayoutRefs, hl]
      rcases hp : parsePartialFile { t with typ := partialType } with ⟨t2, e⟩
      cases e with
      | some e0 => rfl
      | none => exact parseLayoutRefs_append rest _ _ suf

theorem parseLayoutRefs_graft_stable :
    ∀ (refs : List nestedFile) (root : templateSet)
      (grafts : List (String × Node)) (root' : templateSet)
      (grafts' : List (String × Node)) (n : String),
      parseLayoutRefs root grafts refs = .ok (root', grafts') →
      lookupTS root n = none →
      lookupTS grafts n = some (Node.list []) →
      lookupTS grafts' n = some (Node.list [])
  | [], root, grafts, root', grafts', n => by
    intro h hroot hg
    simp only [parseLayoutRefs, Except.ok.injEq, Prod.mk.injEq] at h
    rw [← h.2]
    exact hg
  | ref :: rest, root, grafts, root', grafts', n => by
    intro h hroot hg
    rcases hl : lookupTS root ref.name with _ | t
    · simp only [parseLayoutRefs, hl] at h
      split_ifs at h with htyp
      rw [parsePartialFile_placeholder ref.name] at h
      refine parseLayoutRefs_graft_stable rest root _ root' grafts' n h hroot ?_
      rw [lookupTS_AddParseTree]
      by_cases he : ref.name = n <;> simp [he, hg]
    · have hne : ref.name ≠ n := by
        intro he
        rw [he, hroot] at hl
        exact Option.noConfusion hl
      simp only [parseLayoutRefs, hl] at h
      rcases hp : parsePartialFile { t with typ := partialType } with ⟨t2, e⟩
      rw [hp] at h
      cases e with
      | some e0 => exact Except.noConfusion h
      | none =>
        refine parseLayoutRefs_graft_stable rest _ _ root' grafts' n h
          (lookupTS_updateTS_none root ref.name n t2 hroot) ?_
        rw [lookupTS_AddParseTree, if_neg hne]
        exact hg

theorem parseLayoutRefs_render_graft :
    ∀ (refs : List nestedFile) (root : templateSet)
      (grafts : List (String × Node)) (root' : templateSet)
      (grafts' : List (String × Node)) (n : String),
      lookupTS root n = none →
      (⟨n, renderFunc⟩ : nestedFile) ∈ refs →
      parseLayoutRefs root grafts refs = .ok (root', grafts') →
      lookupTS grafts' n = some (Node.list [])
  | [], root, grafts, root', grafts', n => by
    intro hroot hmem
    simp at hmem
  | ref :: rest, root, grafts, root', grafts', n => by
    intro hroot hmem h
    rcases List.mem_cons.mp hmem with heq | hmem'
    · rw [← heq] at h
      simp only [parseLayoutRefs, hroot] at h
      rw [if_neg (by decide : ¬(renderFunc = partialFunc))] at h
      rw [parsePartialFile_placeholder n] at h
      refine parseLayoutRefs_graft_stable rest root _ root' grafts' n h hroot ?_
      rw [lookupTS_AddParseTree, if_pos rfl]
    · rcases hl : lookupTS root ref.name with _ | t
      · simp only [parseLayoutRefs, hl] at h
        split_ifs at h with htyp
        rw [parsePartialFile_placeholder ref.name] at h
        exact parseLayoutRefs_render_graft rest root _ root' grafts' n hroot hmem' h
      · simp only [parseLayoutRefs, hl] at h
        rcases hp : parsePartialFile { t with typ := partialType } with ⟨t2, e⟩
        rw [hp] at h
        cases e with
        | some e0 => exact Except.noConfusion h
        | none =>
          exact parseLayoutRefs_render_graft rest _ _ root' grafts' n
            (lookupTS_updateTS_none root ref.name n t2 hroot) hmem' h

/-! ## Claim C3 -/

/-- Claim C3: during layout composition, a `partial` reference whose
target is absent from the set is a hard `ErrNotFound` failure — both at
the step that processes it and for the whole loop once the references
before it have been resolved — while a `render` reference whose target
is absent is tolerated: the step succeeds and grafts an empty
placeholder sub-template under that name, which is still present (and
empty) in the layout's grafts when the whole loop succeeds. -/
theorem c3_layout_ref_asymmetry :
    (∀ (root : templateSet) (grafts : List (String × Node)) (n : String)
        (rest : List nestedFile),
      lookupTS root n = none →
      parseLayoutRefs root grafts (⟨n, partialFunc⟩ :: rest) =
        .error (.notFound n)) ∧
    (∀ (root : templateSet) (grafts : List (String × Node)) (n : String)
        (rest : List nestedFile),
      lookupTS root n = none →
      parseLayoutRefs root grafts (⟨n, renderFunc⟩ :: rest) =
        parseLayoutRefs root (AddParseTree grafts n (Node.list [])) rest) ∧
    (∀ (root : templateSet) (grafts : List (String × Node))
        (pre post : List nestedFile) (n : String) (root1 : templateSet)
        (grafts1 : List (String × Node)),
      lookupTS root n = none →
      parseLayoutRefs root grafts pre = .ok (root1, grafts1) →
      parseLayoutRefs root grafts (pre ++ ⟨n, partialFunc⟩ :: post) =
        .error (.notFound n)) ∧
    (∀ (root : templateSet) (grafts : List (String × Node))
        (refs : List nestedFile) (n : String) (root' : templateSet)
        (grafts' : List (String × Node)),
      lookupTS root n = none →
      (⟨n, renderFunc⟩ : nestedFile) ∈ refs →
      parseLayoutRefs root grafts refs = .ok (root', grafts') →
      lookupTS grafts' n = some (Node.list [])) := by
  refine ⟨?_, ?_, ?_, ?_⟩
  · intro root grafts n rest h
    simp [parseLayoutRefs, h]
  · intro root grafts n rest h
    simp only [parseLayoutRefs, h]
    rw [if_neg (by decide : ¬(renderFunc = partialFunc))]
    rw [parsePartialFile_placeholder n]
  · intro root grafts pre post n root1 grafts1 h hpre
    rw [parseLayoutRefs_append, hpre]
    have hn1 : lookupTS root1 n = none :=
      parseLayoutRefs_preserves_none pre root grafts root1 grafts1 n hpre h
    simp [parseLayoutRefs, hn1]
  · intro root grafts refs n root' grafts' h hmem hrun
    exact parseLayoutRefs_render_graft refs root grafts root' grafts' n h hmem hrun

/-- Witness for C3: with a set holding only `a.html`, a missing partial
target `nope.html` aborts the loop with `ErrNotFound` (also after a
resolved earlier reference), while a missing render target `side.html`
is grafted as the empty placeholder. -/
theorem c3_layout_ref_asymmetry_witness :
    parseLayoutRefs [("a.html", c3Fixture)] [] [⟨"nope.html", partialFunc⟩] =
      .error (.notFound "nope.html") ∧
    parseLayoutRefs [("a.html", c3Fixture)] []
        ([⟨"a.html", partialFunc⟩] ++ ⟨"nope.html", partialFunc⟩ :: []) =
      .error (.notFound "nope.html") ∧
    (∃ root' grafts',
      parseLayoutRefs [("a.html", c3Fixture)] [] [⟨"side.html", renderFunc⟩] =
        .ok (root', grafts') ∧
      lookupTS grafts' "side.html" = some (Node.list [])) := by
  refine ⟨?_, ?_, ?_⟩
  · exact c3_layout_ref_asymmetry.1 _ _ _ _ (by simp [lookupTS])
  · refine c3_layout_ref_asymmetry.2.2.1 _ _ _ _ _
      [("a.html", { c3Fixture with typ := partialType })] [("a.html", Node.list [])]
      (by simp [lookupTS]) ?_
    simp [parseLayoutRefs, lookupTS, c3Fixture, parsePartialFile, processTree,
      processNode, processList, updateTS, AddParseTree]
  · refine ⟨[("a.html", c3Fixture)], [("side.html", Node.list [])], ?_, ?_⟩
    · rw [c3_layout_ref_asymmetry.2.1 _ _ _ _ (by simp [lookupTS])]
      simp [parseLayoutRefs, AddParseTree, lookupTS]
    · simp [lookupTS]

/-! ## Claim C5 -/

/-- Claim C5: for every view name not present in the composed-template
map, `Render` returns the `ErrNotFound` sentinel, writes nothing to the
writer, and leaves the engine's map unchanged (execution is never
invoked). -/
theorem c5_render_unknown_view :
    ∀ {α : Type} (m : List (String × Composed))
      (ex : Composed → α → List String × Option String)
      (w : List String) (view : String) (data : α),
      lookupTS m view = none →
      moldEngine.Render m ex w view data = (m, w, some RenderErr.notFound) := by
  intro α m ex w view data h
  simp [moldEngine.Render, h]

/-- Witness for C5: an engine holding only `index.html` returns
`ErrNotFound` for `missing.html`, with the writer untouched even though
execution would write. -/
theorem c5_render_unknown_view_witness :
    moldEngine.Render [("index.html", ⟨Node.list [], []⟩)]
        (fun _ (_ : Unit) => (["<html>"], none)) [] "missing.html" () =
      ([("index.html", ⟨Node.list [], []⟩)], [], some RenderErr.notFound) := by
  exact c5_render_unknown_view _ _ _ _ _ (by simp [lookupTS])

/-- Rewriting a mutual-reference file in the View role succeeds: the
target is another file's name, so the self-reference check does not
fire, and the cross reference is recorded. -/
theorem mutualFile_asView (own other : String) (hno : ¬(other = own))
    (hne : other ≠ "") :
    processTree { mutualFile own other [] with typ := viewType } =
      ({ mutualFile own other [] with
          typ := viewType,
          tree := Node.list [Node.tmpl 0 0 other [⟨[Arg.dot]⟩]] },
        [⟨other, partialFunc⟩], none) := by
  have hga : getActionArgs ⟨[Arg.ident partialFunc, Arg.str other]⟩ =
      (partialFunc, other, none) := by
    simp [getActionArgs]
  have hinvV : invalidFuncType viewType partialFunc = false := rfl
  have hpa : processActionNode own viewType 0 0
      ⟨[Arg.ident partialFunc, Arg.str other]⟩ partialFunc =
      .ok (some (Node.tmpl 0 0 other [⟨[Arg.dot]⟩])) := by
    simp [processActionNode, hga, hno, hinvV, hne]
  simp [processTree, processNode, processList, mutualFile, hga, hpa, combine, hne]

/-- Rewriting a mutual-reference file in the Partial role fails with the
illegal-marker error (not a cyclic-reference error): a Partial may not
invoke `partial`. -/
theorem mutualFile_asPartial (own other : String) (hno : ¬(other = own)) :
    processTree { mutualFile own other [] with typ := partialType } =
      ({ mutualFile own other [] with typ := partialType }, [],
        some ⟨own, 1, 1, partialType, ⟨0, "partial not supported"⟩⟩) := by
  have hga : getActionArgs ⟨[Arg.ident partialFunc, Arg.str other]⟩ =
      (partialFunc, other, none) := by
    simp [getActionArgs]
  have hinvP : invalidFuncType partialType partialFunc = true := rfl
  have hpa : processActionNode own partialType 0 0
      ⟨[Arg.ident partialFunc, Arg.str other]⟩ partialFunc =
      .error ⟨0, "partial not supported"⟩ := by
    simp [processActionNode, hga, hno, hinvP]
    rfl
  simp [processTree, processNode, processList, mutualFile, hga, hpa, combine,
    pos, posLoop]

/-- Composing the first file of a two-file mutual-partial registry fails
with the illegal-marker error from rewriting the second file as a
partial. -/
theorem mutual_processViews_head (a b : String) (hab : a ≠ b) (hb : b ≠ "")
    (rest : List String) :
    processViews [(a, mutualFile a b []), (b, mutualFile b a [])]
        ⟨Node.list [], []⟩ (a :: rest) =
      .error (.parsePartialE b ⟨b, 1, 1, partialType, ⟨0, "partial not supported"⟩⟩) := by
  have hba : ¬(b = a) := fun h => hab h.symm
  have h1 := mutualFile_asView a b hba hb
  have h2 := mutualFile_asPartial b a hab
  have hlook : lookupTS [(a, mutualFile a b []), (b, mutualFile b a [])] a =
      some (mutualFile a b []) := by
    simp [lookupTS]
  have hlook2 : ∀ fA' : templateFile,
      lookupTS (updateTS [(a, mutualFile a b []), (b, mutualFile b a [])] a fA') b =
        some (mutualFile b a []) := by
    intro fA'
    rw [lookupTS_updateTS_other _ a b fA' hab]
    simp [lookupTS, hab]
  have hpp : parsePartialFile { mutualFile b a [] with typ := partialType } =
      ({ mutualFile b a [] with typ := partialType },
        some ⟨b, 1, 1, partialType, ⟨0, "partial not supported"⟩⟩) := by
    simp only [parsePartialFile, h2]
  have hrefs : ∀ fA' : templateFile,
      parseViewRefs (updateTS [(a, mutualFile a b []), (b, mutualFile b a [])] a fA')
          [] [⟨b, partialFunc⟩] =
        .error (.parsePartialE b ⟨b, 1, 1, partialType, ⟨0, "partial not supported"⟩⟩) := by
    intro fA'
    simp only [parseViewRefs, hlook2 fA', hpp]
  simp only [processViews, parseView, hlook]
  rw [show ({ (mutualFile a b []) with typ := viewType } : templateFile) =
    { mutualFile a b [] with typ := viewType } from rfl, h1]
  simp only [hrefs]

/-- Composing the second file first fails symmetrically. -/
theorem mutual_processViews_snd (a b : String) (hab : a ≠ b) (ha : a ≠ "")
    (rest : List String) :
    processViews [(a, mutualFile a b []), (b, mutualFile b a [])]
        ⟨Node.list [], []⟩ (b :: rest) =
      .error (.parsePartialE a ⟨a, 1, 1, partialType, ⟨0, "partial not supported"⟩⟩) := by
  have hba : ¬(b = a) := fun h => hab h.symm
  have h1 := mutualFile_asView b a hab ha
  have h2 := mutualFile_asPartial a b hba
  have hlook : lookupTS [(a, mutualFile a b []), (b, mutualFile b a [])] b =
      some (mutualFile b a []) := by
    simp [lookupTS, hab]
  have hlook2 : ∀ fB' : templateFile,
      lookupTS (updateTS [(a, mutualFile a b []), (b, mutualFile b a [])] b fB') a =
        some (mutualFile a b []) := by
    intro fB'
    rw [lookupTS_updateTS_other _ b a fB' hba]
    simp [lookupTS]
  have hpp : parsePartialFile { mutualFile a b [] with typ := partialType } =
      ({ mutualFile a b [] with typ := partialType },
        some ⟨a, 1, 1, partialType, ⟨0, "partial not supported"⟩⟩) := by
    simp only [parsePartialFile, h2]
  have hrefs : ∀ fB' : templateFile,
      parseViewRefs (updateTS [(a, mutualFile a b []), (b, mutualFile b a [])] b fB')
          [] [⟨a, partialFunc⟩] =
        .error (.parsePartialE a ⟨a, 1, 1, partialType, ⟨0, "partial not supported"⟩⟩) := by
    intro fB'
    simp only [parseViewRefs, hlook2 fB', hpp]
  simp only [processViews, parseView, hlook]
  rw [show ({ (mutualFile b a []) with typ := viewType } : templateFile) =
    { mutualFile b a [] with typ := viewType } from rfl, h1]
  simp only [hrefs]

/-- Counterexample to C8 as stated: for the registry of the two files
`view.html` = `partial "partial.html"` and `partial.html` =
`partial "view.html"`, construction does not succeed — the view loop
fails in either iteration order with the illegal-marker error (the
repository's own test `TestRender_PartialInvalidPartial` expects this
failure). -/
theorem c8_mutual_partial_counterexample :
    processViews
        [("view.html", mutualFile "view.html" "partial.html" []),
          ("partial.html", mutualFile "partial.html" "view.html" [])]
        ⟨Node.list [], []⟩ ["view.html", "partial.html"] =
      .error (.parsePartialE "partial.html"
        ⟨"partial.html", 1, 1, partialType, ⟨0, "partial not supported"⟩⟩) ∧
    processViews
        [("view.html", mutualFile "view.html" "partial.html" []),
          ("partial.html", mutualFile "partial.html" "view.html" [])]
        ⟨Node.list [], []⟩ ["partial.html", "view.html"] =
      .error (.parsePartialE "view.html"
        ⟨"view.html", 1, 1, partialType, ⟨0, "partial not supported"⟩⟩) :=
  ⟨mutual_processViews_head "view.html" "partial.html" (by decide) (by decide) _,
    mutual_processViews_snd "view.html" "partial.html" (by decide) (by decide) _⟩

/-- Claim C8, amended: mutual `partial` references between two distinct
files are indeed not treated as cyclic — rewriting either file alone in
the View role succeeds, records the cross reference, and reports no
cyclic error — but construction does not succeed: resolving the
reference stamps the referenced file with the Partial role, and
rewriting it then rejects its own `partial` invocation with the
illegal-marker error `partial not supported` (not a cyclic-reference
error), so the view loop aborts construction whichever file it composes
first. -/
theorem c8_mutual_partial_amended :
    ∀ a b : String, a ≠ b → a ≠ "" → b ≠ "" →
      processTree { mutualFile a b [] with typ := viewType } =
        ({ mutualFile a b [] with
            typ := viewType,
            tree := Node.list [Node.tmpl 0 0 b [⟨[Arg.dot]⟩]] },
          [⟨b, partialFunc⟩], none) ∧
      (processTree { mutualFile b a [] with typ := partialType }).2.2 =
        some ⟨b, 1, 1, partialType, ⟨0, "partial not supported"⟩⟩ ∧
      (∀ rest : List String,
        processViews [(a, mutualFile a b []), (b, mutualFile b a [])]
            ⟨Node.list [], []⟩ (a :: rest) =
          .error (.parsePartialE b
            ⟨b, 1, 1, partialType, ⟨0, "partial not supported"⟩⟩)) ∧
      (∀ rest : List String,
        processViews [(a, mutualFile a b []), (b, mutualFile b a [])]
            ⟨Node.list [], []⟩ (b :: rest) =
          .error (.parsePartialE a
            ⟨a, 1, 1, partialType, ⟨0, "partial not supported"⟩⟩)) := by
  intro a b hab ha hb
  have hba : ¬(b = a) := fun h => hab h.symm
  refine ⟨mutualFile_asView a b hba hb, by rw [mutualFile_asPartial b a hab], ?_, ?_⟩
  · exact fun rest => mutual_processViews_head a b hab hb rest
  · exact fun rest => mutual_processViews_snd a b hab ha rest

/-- Witness for the amended C8, at the files `v.html` and `p.html`. -/
theorem c8_mutual_partial_amended_witness :
    processTree { mutualFile "v.html" "p.html" [] with typ := viewType } =
      ({ mutualFile "v.html" "p.html" [] with
          typ := viewType,
          tree := Node.list [Node.tmpl 0 0 "p.html" [⟨[Arg.dot]⟩]] },
        [⟨"p.html", partialFunc⟩], none) ∧
    (processTree { mutualFile "p.html" "v.html" [] with typ := partialType }).2.2 =
      some ⟨"p.html", 1, 1, partialType, ⟨0, "partial not supported"⟩⟩ ∧
    processViews [("v.html", mutualFile "v.html" "p.html" []),
        ("p.html", mutualFile "p.html" "v.html" [])]
        ⟨Node.list [], []⟩ ["v.html"] =
      .error (.parsePartialE "p.html"
        ⟨"p.html", 1, 1, partialType, ⟨0, "partial not supported"⟩⟩) ∧
    processViews [("v.html", mutualFile "v.html" "p.html" []),
        ("p.html", mutualFile "p.html" "v.html" [])]
        ⟨Node.list [], []⟩ ["p.html"] =
      .error (.parsePartialE "v.html"
        ⟨"v.html", 1, 1, partialType, ⟨0, "partial not supported"⟩⟩) := by
  have h := c8_mutual_partial_amended "v.html" "p.html" (by decide) (by decide)
    (by decide)
  exact ⟨h.1, h.2.1, h.2.2.1 [], h.2.2.2 []⟩

/-! ## Claim C7 -/

/-- Claim C7: every composed template produced by a successful
`parseView` of the tplLayout composer defines a `head` section — the
final step grafts an empty placeholder when neither the view, the root
set nor the layout clone defined one — so executing a composed template
never fails because the optional head section is undefined. -/
theorem c7_head_always_defined :
    ∀ (layout root : List (String × Node)) (name : String) (raw : List Char)
      (l : List (String × Node)),
      tplLayout.parseView layout root name raw = .ok l →
      (lookupTS l headSection).isSome = true := by
  intro layout root name raw l h
  simp only [tplLayout.parseView] at h
  rcases hl : lookupTS root name with _ | bodyTree
  · simp only [hl] at h
    exact Except.noConfusion h
  · simp only [hl] at h
    rcases hp : tplLayout.processTree name raw false true bodyTree with ⟨tree', refs, err⟩
    cases err with
    | some e =>
      simp only [hp] at h
      exact Except.noConfusion h
    | none =>
      simp only [hp] at h
      rcases hg : tplLayout.graftRefs (updateTS root name tree') layout refs
        with e | l1
      · simp only [hg] at h
        exact Except.noConfusion h
      · simp only [hg] at h
        set l2 := (updateTS root name tree').foldl
          (fun acc t =>
            AddParseTree acc (if t.1 = name then bodySection else t.1) t.2) l1
          with hl2
        by_cases hh : (lookupTS l2 headSection).isNone = true
        · rw [if_pos hh] at h
          have hinj := Except.ok.inj h
          rw [← hinj, lookupTS_AddParseTree]
          simp
        · rw [if_neg hh] at h
          have hinj := Except.ok.inj h
          rw [← hinj]
          rcases hx : lookupTS l2 headSection with _ | v
          · rw [hx] at hh
            exact absurd rfl hh
          · rfl

/-- Witness for C7: composing the lone empty view `v.html` against an
empty layout clone yields a set in which the head placeholder is
defined. -/
theorem c7_head_always_defined_witness :
    tplLayout.parseView [] [("v.html", Node.list [])] "v.html" [] =
      .ok [(bodySection, Node.list []), (headSection, Node.list [])] ∧
    (lookupTS [(bodySection, Node.list []), (headSection, Node.list [])]
      headSection).isSome = true := by
  have hrun : tplLayout.parseView [] [("v.html", Node.list [])] "v.html" [] =
      .ok [(bodySection, Node.list []), (headSection, Node.list [])] := by
    simp [tplLayout.parseView, tplLayout.processTree, tplLayout.processNode,
      tplLayout.processList, tplLayout.graftRefs, lookupTS, updateTS,
      AddParseTree, bodySection, headSection]
  exact ⟨hrun,
    c7_head_always_defined [] [("v.html", Node.list [])] "v.html" [] _ hrun⟩

/-- Counterexample to C1 as stated: when another marker invocation after
the self-reference also fails, the walk reports that later error (last
failing invocation wins), so the rewrite of a tree containing a
self-targeting `partial` can fail with the missing-target error rather
than the cyclic-reference error. -/
theorem c1_self_reference_counterexample :
    (∃ er, (processTree
      { name := "a.html", typ := layoutType, body := [],
        tree := Node.list
          [Node.action 0 0 [⟨[Arg.ident "partial", Arg.str "a.html"]⟩],
            Node.action 5 1 [⟨[Arg.ident "partial", Arg.str ""]⟩]],
        defines := [] }).2.2 = some er ∧
      er.cause.message = "path to partial file is not specified") ∧
    "path to partial file is not specified" ≠ "cyclic reference" := by
  constructor
  · have hga1 : getActionArgs ⟨[Arg.ident "partial", Arg.str "a.html"]⟩ =
        ("partial", "a.html", none) := by
      simp [getActionArgs]
    have hga2 : getActionArgs ⟨[Arg.ident "partial", Arg.str ""]⟩ =
        ("partial", "", none) := by
      simp [getActionArgs]
    have hpa1 := processActionNode_self "a.html" layoutType 0 0
      ⟨[Arg.ident "partial", Arg.str "a.html"]⟩ "partial" (by rw [hga1])
    have hpa2 : processActionNode "a.html" layoutType 5 1
        ⟨[Arg.ident "partial", Arg.str ""]⟩ "partial" =
        .error ⟨5, "path to partial file is not specified"⟩ := by
      simp [processActionNode, hga2, invalidFuncType, layoutType, viewType,
        partialType, partialFunc, renderFunc]
    refine ⟨⟨"a.html", 1, 1, layoutType, ⟨5, "path to partial file is not specified"⟩⟩,
      ?_, rfl⟩
    rw [processTree_err]
    simp [processNode, processList, hga1, hga2, hpa1, hpa2, combine, pos, posLoop]
  · decide
